import Mathlib

/-!
# Verification of the network-visualization graph construction

Shallow embedding of the repository's graph-construction code:

* `src/vis_utils2.py` — `_check_pydot`, `is_model`, `is_wrapped_model`,
  `add_edge`, `model_to_dot`, `plot_model`, and the module constants
  `DOT_KWARGS`, `NODE_KWARGS`, `LAYER_COLOR_DICT`.
* `src/network_visualization.py` — the color-resolution step of
  `draw_graph`'s node creation and its `layer_color_dict`.

Keras objects are embedded as explicit data: a layer carries its python
`id()` (a `Nat`), `name`, `__class__.__name__`, a string tag standing for
its runtime type (the key used by the color dictionaries), its
`_inbound_nodes` (each node being the list of its `inbound_layers`,
stored as direct layer values exactly as python stores direct object
references), optional `output_shape` / `input_shape` / `input_shapes`
attributes (`none` models the attribute being absent, i.e. the
`AttributeError` / failed `hasattr` cases), and its structure: a plain
layer, a `Model` (with the sub-model's own `_layers`, `_network_nodes`,
`Sequential` flag and `built` flag), or a `Wrapper` (with its inner
`layer.layer`).

pydot graphs are embedded as explicit containers of attributes, nodes,
edges and nested subgraphs, with `get_edge`, `get_node`, `add_node`,
`add_edge`, `add_subgraph` mirroring the pydot operations the source
uses: `add_node` / `add_edge` append, `get_nodes` returns the directly
added nodes in insertion order, `get_edge src dst` matches the ordered
endpoint pair.

Python exceptions become an `Except VisError` result; recursion is
driven by an explicit fuel parameter (the recursion of `model_to_dot`
into nested sub-models is bounded by the nesting depth, so every
terminating python run corresponds to every sufficiently large fuel; an
exhausted fuel yields the distinguished error `outOfFuel`, which never
coincides with a python behaviour and is excluded by the `.ok`
hypotheses of the theorems below).
-/

/-- Python exceptions raised (or propagated) by the visualization code. -/
inductive VisError : Type where
  | importError (msg : String)
  | osError (msg : String)
  | indexError
  | keyError (key : String)
  | assertionError
  | outOfFuel
deriving DecidableEq

/-- A pydot node: its identifying name, its `label` and `color`
keyword arguments, and the remaining constant keyword arguments. -/
structure DotNode : Type where
  name : String
  label : String
  color : String
  kwargs : List (String × String)
deriving DecidableEq

/-- A pydot edge: ordered source and destination endpoint names plus
keyword arguments. -/
structure DotEdge : Type where
  src : String
  dst : String
  eattrs : List (String × String)
deriving DecidableEq

/-- A pydot graph (`pydot.Dot` or `pydot.Cluster`): graph-level
attributes, node defaults, directly added nodes and edges (in insertion
order, duplicates kept, as pydot keeps them), and nested subgraphs. -/
inductive Dot : Type where
  | mk (isCluster : Bool) (gname : String) (attrs : List (String × String))
      (nodeDefaults : List (String × String)) (nodes : List DotNode)
      (edges : List DotEdge) (subgraphs : List Dot)

def Dot.isCluster : Dot → Bool
  | .mk c _ _ _ _ _ _ => c

def Dot.gname : Dot → String
  | .mk _ g _ _ _ _ _ => g

def Dot.attrs : Dot → List (String × String)
  | .mk _ _ a _ _ _ _ => a

def Dot.nodeDefaults : Dot → List (String × String)
  | .mk _ _ _ d _ _ _ => d

/-- `get_nodes()`: the directly added nodes, in insertion order
(nodes inside subgraphs are not included, as in pydot). -/
def Dot.nodes : Dot → List DotNode
  | .mk _ _ _ _ n _ _ => n

def Dot.edges : Dot → List DotEdge
  | .mk _ _ _ _ _ e _ => e

def Dot.subgraphs : Dot → List Dot
  | .mk _ _ _ _ _ _ s => s

/-- `dot.add_node(node)`: appends. -/
def Dot.addNode : Dot → DotNode → Dot
  | .mk c g a d n e s, nd => .mk c g a d (n ++ [nd]) e s

/-- `dot.add_edge(pydot.Edge(src, dst))`: the direct (non-deduplicating)
insertion, appends unconditionally. -/
def Dot.addEdgeRaw : Dot → DotEdge → Dot
  | .mk c g a d n e s, ed => .mk c g a d n (e ++ [ed]) s

/-- `dot.add_subgraph(sub)`: appends. -/
def Dot.addSubgraph : Dot → Dot → Dot
  | .mk c g a d n e s, sub => .mk c g a d n e (s ++ [sub])

/-- Truthiness of `dot.get_edge(src, dst)`: an edge with this ordered
endpoint pair exists among the directly added edges. -/
def Dot.getEdge (d : Dot) (src dst : String) : Bool :=
  d.edges.any (fun e => e.src == src && e.dst == dst)

/-- Truthiness of `dot.get_node(name)`: a directly added node with this
name exists. -/
def Dot.getNode (d : Dot) (nm : String) : Bool :=
  d.nodes.any (fun n => n.name == nm)

mutual

/-- A Keras layer object, as read by `model_to_dot`: python `id()`,
`name`, `__class__.__name__`, the runtime-type tag (key of the color
dictionaries), `_inbound_nodes` (each node lists its `inbound_layers`),
the shape attributes, and the layer's structure. -/
inductive KLayer : Type where
  | mk (lid : Nat) (name : String) (className : String) (typeTag : String)
      (inbound : List (List KLayer))
      (outShape : Option String) (inShape : Option String)
      (inShapes : Option (List String))
      (struct : LayerStruct) : KLayer

/-- Whether a layer is a plain layer, a `Model` (carrying the sub-model
data), or a `Wrapper` (carrying `layer.layer`). A Keras `Wrapper` is
never itself a `Model`, which this sum type enforces. -/
inductive LayerStruct : Type where
  | plain : LayerStruct
  | model (m : KModel) : LayerStruct
  | wrapper (inner : KLayer) : LayerStruct

/-- The model data `model_to_dot` reads: `_layers`, `_network_nodes`,
whether the object is a `Sequential`, and its `built` flag. The model's
`name` attribute is passed separately where needed because a sub-model
appears as a `KLayer` (whose `name` field is that same attribute). -/
inductive KModel : Type where
  | mk (layers : List KLayer) (networkNodes : List String)
      (isSeq : Bool) (built : Bool) : KModel

end

def KLayer.lid : KLayer → Nat
  | .mk i _ _ _ _ _ _ _ _ => i

def KLayer.name : KLayer → String
  | .mk _ n _ _ _ _ _ _ _ => n

def KLayer.className : KLayer → String
  | .mk _ _ c _ _ _ _ _ _ => c

def KLayer.typeTag : KLayer → String
  | .mk _ _ _ t _ _ _ _ _ => t

def KLayer.inbound : KLayer → List (List KLayer)
  | .mk _ _ _ _ i _ _ _ _ => i

def KLayer.outShape : KLayer → Option String
  | .mk _ _ _ _ _ o _ _ _ => o

def KLayer.inShape : KLayer → Option String
  | .mk _ _ _ _ _ _ i _ _ => i

def KLayer.inShapes : KLayer → Option (List String)
  | .mk _ _ _ _ _ _ _ s _ => s

def KLayer.struct : KLayer → LayerStruct
  | .mk _ _ _ _ _ _ _ _ st => st

def KModel.layers : KModel → List KLayer
  | .mk l _ _ _ => l

def KModel.networkNodes : KModel → List String
  | .mk _ n _ _ => n

def KModel.isSeq : KModel → Bool
  | .mk _ _ s _ => s

def KModel.built : KModel → Bool
  | .mk _ _ _ b => b

/-- `is_model(layer)`: `isinstance(layer, Model)`. -/
def is_model (l : KLayer) : Bool :=
  match l.struct with
  | .model _ => true
  | _ => false

/-- `is_wrapped_model(layer)`:
`isinstance(layer, Wrapper) and isinstance(layer.layer, Model)`. -/
def is_wrapped_model (l : KLayer) : Bool :=
  match l.struct with
  | .wrapper inner => is_model inner
  | _ => false

/-- `layer.layer.name` for a wrapper layer (only read on branches
guarded by `is_wrapped_model`; the default is never reached there). -/
def wrappedInnerName (l : KLayer) : String :=
  match l.struct with
  | .wrapper inner => inner.name
  | _ => ""

/-- Availability of the optional external dependencies: whether
`import pydot` succeeded, and whether `pydot.Dot.create` can call the
GraphViz binary. -/
structure PyEnv : Type where
  pydot_installed : Bool
  graphviz_usable : Bool

/-- The keyword arguments of `model_to_dot` (and `plot_model`). -/
structure VisCfg : Type where
  show_shapes : Bool
  show_layer_names : Bool
  rankdir : String
  expand_nested : Bool
  dpi : Nat

/-- `DOT_KWARGS` from `vis_utils2.py` (values rendered as strings). -/
def DOT_KWARGS : List (String × String) :=
  [("graph_type", "graph"), ("rotate", "90"), ("ranksep", "0.4")]

/-- `NODE_KWARGS` from `vis_utils2.py`. -/
def NODE_KWARGS : List (String × String) :=
  [("height", "0.5"), ("width", "1.4"), ("shape", "box"),
   ("style", "rounded, filled"), ("fontsize", "12"),
   ("fontcolor", "white"), ("fontname", "Roboto Light")]

/-- `LAYER_COLOR_DICT` from `vis_utils2.py`, keyed by the runtime-type
tag (the fully qualified class used as the dictionary key). The value
for `BatchNormalization` is the source's literal `"#add8e6y"`. -/
def LAYER_COLOR_DICT : List (String × String) :=
  [("keras.engine.input_layer.InputLayer", "grey"),
   ("keras.layers.core.Reshape", "#F5A286"),
   ("keras.layers.convolutional.Conv1D", "#F7D7A8"),
   ("keras.layers.convolutional.Conv2D", "#F7D7A8"),
   ("keras.layers.pooling.MaxPooling1D", "#AADFA2"),
   ("keras.layers.pooling.MaxPooling2D", "#AADFA2"),
   ("keras.layers.convolutional.ZeroPadding2D", "grey"),
   ("keras.layers.convolutional.ZeroPadding3D", "grey"),
   ("keras.layers.core.Flatten", "#d44ddb"),
   ("keras.layers.pooling.AveragePooling2D", "#A8CFE7"),
   ("keras.layers.pooling.GlobalAveragePooling2D", "#A8CFE7"),
   ("keras.layers.core.Dropout", "#9896C8"),
   ("keras.layers.core.Dense", "#C66AA7"),
   ("keras.layers.advanced_activations.ReLU", "#C66AA7"),
   ("keras.layers.merge.Concatenate", "#F5A286"),
   ("keras.engine.training.Model", "#292D30"),
   ("keras.layers.core.RepeatVector", "grey"),
   ("keras.layers.merge.Multiply", "grey"),
   ("keras.layers.merge.Add", "grey"),
   ("keras.layers.normalization.BatchNormalization", "#add8e6y"),
   ("keras.layers.recurrent.LSTM", "#A8CFE7"),
   ("keras.layers.recurrent.GRU", "#ff6961"),
   ("keras.layers.core.Activation", "#9896C8")]

/-- The message of the `ImportError` raised by `_check_pydot`. -/
def pydotImportMsg : String :=
  "Failed to import `pydot`. Please install `pydot`. For example with `pip install pydot`."

/-- The message of the `OSError` raised by `_check_pydot` (the source
concatenates the first two fragments without a separating space). -/
def graphvizOsMsg : String :=
  "`pydot` failed to call GraphViz.Please install GraphViz (https://www.graphviz.org/) and ensure that its executables are in the $PATH."

/-- `_check_pydot()`: raise `ImportError` if `pydot` failed to import,
`OSError` if pydot cannot call GraphViz. -/
def _check_pydot (env : PyEnv) : Except VisError Unit :=
  if !env.pydot_installed then .error (.importError pydotImportMsg)
  else if !env.graphviz_usable then .error (.osError graphvizOsMsg)
  else .ok ()

/-- `add_edge(dot, src, dst)` from `vis_utils2.py`: the deduplicating
insertion path — skip if an edge with the same ordered endpoints
already exists. -/
def add_edge (dot : Dot) (src dst : String) : Dot :=
  if dot.getEdge src dst then dot else dot.addEdgeRaw ⟨src, dst, []⟩

/-- Python `label.split(":")[-1]` (line 203): the segment after the
last colon, the whole string when there is none. -/
def lastColonSeg (s : String) : String :=
  String.mk ((s.data.reverse.takeWhile (fun c => c ≠ ':')).reverse)

/-- Label construction, lines 178–199: the base label from
`show_layer_names`, then, under `show_shapes`, the shape annotation;
a missing `output_shape` attribute (`try ... except AttributeError`)
yields `"multiple"`, and the `hasattr` chain on `input_shape` /
`input_shapes` falls back to `"multiple"` as well. -/
def buildLabel (showNames showShapes : Bool) (layerName className : String)
    (outS inS : Option String) (inSs : Option (List String)) : String :=
  let label := if showNames then layerName ++ (": ") ++ className else className
  if showShapes then
    let outputlabels :=
      match outS with
      | some s => s
      | none => "multiple"
    let inputlabels :=
      match inS with
      | some s => s
      | none =>
        match inSs with
        | some xs => String.intercalate (", ") xs
        | none => "multiple"
    label ++ ("\n|\x7binput:|output:\x7d|\x7b\x7b") ++ inputlabels ++
      ("\x7d|\x7b") ++ outputlabels ++ ("\x7d\x7d")
  else label

/-- Color resolution at node creation, line 204:
`LAYER_COLOR_DICT.get(layer_type, 'grey')`. -/
def layerColor (tag : String) : String :=
  (List.lookup tag LAYER_COLOR_DICT).getD "grey"

/-- The `pydot.Node` built at lines 202–205: name `str(id(layer))`,
label `label.split(":")[-1]`, color from the color table with default,
plus `NODE_KWARGS`. `layerName` and `className` are the (possibly
wrapper-adjusted) strings feeding the label. -/
def mkLayerNode (showNames showShapes : Bool) (layerName className : String)
    (l : KLayer) : DotNode :=
  { name := toString l.lid
    label := lastColonSeg
      (buildLabel showNames showShapes layerName className
        l.outShape l.inShape l.inShapes)
    color := layerColor l.typeTag
    kwargs := NODE_KWARGS }

/-- The `pydot.Dot(**DOT_KWARGS)` of the non-subgraph branch, lines
126–130, with `concentrate` and `dpi` set afterwards.  The source's
line 127 `dot.set('rankdir', rankdir)` is commented out, so no
`rankdir` attribute is ever set. -/
def initDot (dpi : Nat) : Dot :=
  .mk false "" (DOT_KWARGS ++ [("concentrate", "True"), ("dpi", toString dpi)])
    [("shape", "record")] [] [] []

/-- The `pydot.Cluster` of the subgraph branch, lines 121–124. -/
def initCluster (name : String) : Dot :=
  .mk true name [("style", "dashed"), ("label", name), ("labeljust", "l")]
    [] [] [] []

/-- The four bookkeeping dictionaries of `model_to_dot` (lines
132–135), mapping a sub-model name to the recorded boundary node's
name (`get_name()` is all the code ever reads from the stored node).
Assignment is modeled by consing, lookup by first match. -/
structure MapsSt : Type where
  nFirst : List (String × String)
  nLast : List (String × String)
  wFirst : List (String × String)
  wLast : List (String × String)

/-- The construction state: the graph under construction plus the
bookkeeping dictionaries. -/
structure St : Type where
  dot : Dot
  maps : MapsSt

/-- Wrapper handling, lines 151–165: under `expand_nested`, a wrapper
around a `Model` is expanded by the recursive call — the resulting
cluster's node list is indexed at `[0]` and `[-1]` (`IndexError` when
empty), recorded in the `sub_w` dictionaries under `layer.layer.name`,
and the cluster added as a subgraph; otherwise the wrapper's layer and
class names are mangled to `name(inner)`.  Returns the state, the
`layer_name` / `class_name` strings feeding the label, and the layer
(with the in-place-built inner sub-model when recursion happened). -/
def wrap_stage (recur : String → KModel → Except VisError (St × KModel))
    (cfg : VisCfg) (st : St) (l : KLayer) :
    Except VisError (St × String × String × KLayer) :=
  match l with
  | .mk lid lname lclass ltag linb loutS linS linSs lstruct =>
    match lstruct with
    | .wrapper (.mk ilid iname iclass itag iinb ios iis iiss istruct) =>
      match istruct with
      | .model im =>
        if cfg.expand_nested then
          match recur iname im with
          | .error e => .error e
          | .ok (stW, im2) =>
            match stW.dot.nodes with
            | [] => .error .indexError
            | n0 :: rest =>
              .ok ({ dot := st.dot.addSubgraph stW.dot,
                     maps := { st.maps with
                       wFirst := (iname, n0.name) :: st.maps.wFirst,
                       wLast := (iname, (rest.getLastD n0).name) :: st.maps.wLast } },
                   lname, lclass,
                   .mk lid lname lclass ltag linb loutS linS linSs
                     (.wrapper (.mk ilid iname iclass itag iinb ios iis iiss
                       (.model im2))))
        else
          .ok (st, lname ++ ("(") ++ iname ++ (")"),
               lclass ++ ("(") ++ iclass ++ (")"), l)
      | _ =>
        .ok (st, lname ++ ("(") ++ iname ++ (")"),
             lclass ++ ("(") ++ iclass ++ (")"), l)
    | _ => .ok (st, lname, lclass, l)

/-- Sub-model expansion, lines 167–176: under `expand_nested`, a layer
that is a `Model` is expanded by the recursive call, the cluster's
first / last nodes (`IndexError` when the node list is empty) recorded
in the `sub_n` dictionaries under `layer.name`, and the cluster added
as a subgraph. -/
def expand_stage (recur : String → KModel → Except VisError (St × KModel))
    (cfg : VisCfg) (st : St) (l : KLayer) : Except VisError (St × KLayer) :=
  match l with
  | .mk lid lname lclass ltag linb loutS linS linSs lstruct =>
    match lstruct with
    | .model m =>
      if cfg.expand_nested then
        match recur lname m with
        | .error e => .error e
        | .ok (stN, m2) =>
          match stN.dot.nodes with
          | [] => .error .indexError
          | n0 :: rest =>
            .ok ({ dot := st.dot.addSubgraph stN.dot,
                   maps := { st.maps with
                     nFirst := (lname, n0.name) :: st.maps.nFirst,
                     nLast := (lname, (rest.getLastD n0).name) :: st.maps.nLast } },
                 .mk lid lname lclass ltag linb loutS linS linSs (.model m2))
      else .ok (st, l)
    | _ => .ok (st, l)

/-- Node creation, lines 201–206: every layer gets a node except a
`Model` layer under `expand_nested` (whose visual slot is its
cluster). -/
def node_stage (cfg : VisCfg) (st : St) (layerName className : String)
    (l : KLayer) : St :=
  let nd := mkLayerNode cfg.show_layer_names cfg.show_shapes layerName className l
  if !cfg.expand_nested || !is_model l then
    { st with dot := st.dot.addNode nd }
  else st

/-- One iteration of the node-creation loop (lines 143–206) for a
single layer: wrapper handling, sub-model expansion, label
construction and node creation.  `recur` is the recursive
`model_to_dot(…, subgraph=True)` call; the returned layer carries the
sub-model `built` flags that the recursive call may have set in
place. -/
def layer_step (recur : String → KModel → Except VisError (St × KModel))
    (cfg : VisCfg) (st : St) (l : KLayer) : Except VisError (St × KLayer) :=
  match wrap_stage recur cfg st l with
  | .error e => .error e
  | .ok (st1, layerName, className, l1) =>
    match expand_stage recur cfg st1 l1 with
    | .error e => .error e
    | .ok (st2, l2) => .ok (node_stage cfg st2 layerName className l2, l2)

/-- The node-creation loop over the layer list (lines 143–206). -/
def node_pass (recur : String → KModel → Except VisError (St × KModel))
    (cfg : VisCfg) : St → List KLayer → Except VisError (St × List KLayer)
  | st, [] => .ok (st, [])
  | st, l :: ls =>
    match layer_step recur cfg st l with
    | .error e => .error e
    | .ok (st1, l1) =>
      match node_pass recur cfg st1 ls with
      | .error e => .error e
      | .ok (st2, ls1) => .ok (st2, l1 :: ls1)

/-- The body of the edge loop for one `(inbound_layer, layer)` pair
(lines 216–255): with `expand_nested` off, assert both endpoints exist
and add the edge directly; with it on, the boundary-rewiring branch
tree, exactly as in the source (direct `dot.add_edge` where the source
uses it, the deduplicating `add_edge` where the source uses that). -/
def process_inbound (cfg : VisCfg) (maps : MapsSt) (l : KLayer) (dot : Dot)
    (r : KLayer) : Except VisError Dot :=
  let layerId := toString l.lid
  let rid := toString r.lid
  if !cfg.expand_nested then
    if !dot.getNode rid then .error .assertionError
    else if !dot.getNode layerId then .error .assertionError
    else .ok (dot.addEdgeRaw ⟨rid, layerId, []⟩)
  else
    if !is_model r && !is_wrapped_model r then
      if !is_model l && !is_wrapped_model l then
        if !dot.getNode rid then .error .assertionError
        else if !dot.getNode layerId then .error .assertionError
        else .ok (dot.addEdgeRaw ⟨rid, layerId, []⟩)
      else if is_model l then
        match List.lookup l.name maps.nFirst with
        | none => .error (.keyError l.name)
        | some nm => .ok (add_edge dot rid nm)
      else
        let dot1 := dot.addEdgeRaw ⟨rid, layerId, []⟩
        match List.lookup (wrappedInnerName l) maps.wFirst with
        | none => .error (.keyError (wrappedInnerName l))
        | some nm => .ok (dot1.addEdgeRaw ⟨layerId, nm, []⟩)
    else if is_model r then
      match List.lookup r.name maps.nLast with
      | none => .error (.keyError r.name)
      | some nm =>
        if is_model l then
          match List.lookup l.name maps.nFirst with
          | none => .error (.keyError l.name)
          | some outNm => .ok (add_edge dot nm outNm)
        else .ok (add_edge dot nm layerId)
    else
      match List.lookup (wrappedInnerName r) maps.wLast with
      | none => .error (.keyError (wrappedInnerName r))
      | some nm => .ok (add_edge dot nm layerId)

/-- Fold of `process_inbound` over the `inbound_layers` of one
connection record (line 214). -/
def inbound_fold (cfg : VisCfg) (maps : MapsSt) (l : KLayer) :
    Dot → List KLayer → Except VisError Dot
  | dot, [] => .ok dot
  | dot, r :: rs =>
    match process_inbound cfg maps l dot r with
    | .error e => .error e
    | .ok dot1 => inbound_fold cfg maps l dot1 rs

/-- The loop over `enumerate(layer._inbound_nodes)` (lines 211–213):
a record is processed only when `layer.name + '_ib-' + str(i)` is in
`model._network_nodes`. -/
def node_fold (cfg : VisCfg) (maps : MapsSt) (nn : List String) (l : KLayer) :
    Dot → Nat → List (List KLayer) → Except VisError Dot
  | dot, _, [] => .ok dot
  | dot, i, nd :: nds =>
    let key := l.name ++ ("_ib-") ++ toString i
    match (if nn.contains key then inbound_fold cfg maps l dot nd else .ok dot) with
    | .error e => .error e
    | .ok dot1 => node_fold cfg maps nn l dot1 (i + 1) nds

/-- The edge-connection pass over the layer list (lines 208–255). -/
def edge_pass (cfg : VisCfg) (maps : MapsSt) (nn : List String) :
    Dot → List KLayer → Except VisError Dot
  | dot, [] => .ok dot
  | dot, l :: ls =>
    match node_fold cfg maps nn l dot 0 l.inbound with
    | .error e => .error e
    | .ok dot1 => edge_pass cfg maps nn dot1 ls

/-- `model_to_dot` (lines 90–256), with an explicit recursion fuel.
It checks the pydot/GraphViz dependency first, initializes the `Dot`
or `Cluster`, calls `model.build()` on an unbuilt `Sequential`
(modeled as setting the `built` flag), runs the node-creation pass
(which recurses into expanded sub-models with `subgraph=True` and, as
in the source's recursive call, the default `dpi=96`), then the
edge-connection pass.  It returns the final graph together with the
bookkeeping dictionaries and the (possibly built) model. -/
def model_to_dot : Nat → PyEnv → VisCfg → Bool → String → KModel →
    Except VisError (St × KModel)
  | 0, env, _, _, _, _ =>
    match _check_pydot env with
    | .error e => .error e
    | .ok _ => .error .outOfFuel
  | fuel + 1, env, cfg, subgraph, name, m =>
    match _check_pydot env with
    | .error e => .error e
    | .ok _ =>
      let dot0 := if subgraph then initCluster name else initDot cfg.dpi
      let built1 := if m.isSeq && !m.built then true else m.built
      let st0 : St := ⟨dot0, ⟨[], [], [], []⟩⟩
      match node_pass
          (fun nm sub => model_to_dot fuel env { cfg with dpi := 96 } true nm sub)
          cfg st0 m.layers with
      | .error e => .error e
      | .ok (st1, layers1) =>
        match edge_pass cfg st1.maps m.networkNodes st1.dot layers1 with
        | .error e => .error e
        | .ok dotF =>
          .ok (⟨dotF, st1.maps⟩, .mk layers1 m.networkNodes m.isSeq built1)

/-- `os.path.splitext`, for the paths `plot_model` handles: the
extension starts at the last dot of the path (empty when there is
none). -/
def splitExtension (path : String) : String × String :=
  if path.data.contains '.' then
    let after := (path.data.reverse.takeWhile (fun c => c ≠ '.')).reverse
    (String.mk (path.data.take (path.data.length - after.length - 1)),
     String.mk ('.' :: after))
  else (path, "")

/-- `plot_model` (lines 259–297): build the dot, derive the output
format from the file extension (`png` when there is none, the
extension without its dot otherwise), and write the file.  The result
is the list of `(path, format)` writes performed — empty reach is
impossible on success and no write happens on failure, since
`dot.write` runs only after `model_to_dot` returned.  The trailing
IPython display is plumbing and not modeled. -/
def plot_model (fuel : Nat) (env : PyEnv) (cfg : VisCfg) (toFile : String)
    (name : String) (m : KModel) : Except VisError (List (String × String)) :=
  match model_to_dot fuel env cfg false name m with
  | .error e => .error e
  | .ok _ =>
    let ext := (splitExtension toFile).2
    let extension := if ext = "" then "png" else String.mk ext.data.tail
    .ok [(toFile, extension)]

/-- `layer_color_dict` from `network_visualization.py` (lines 19–39). -/
def nv_layer_color_dict : List (String × String) :=
  [("keras.engine.input_layer.InputLayer", "grey"),
   ("keras.layers.core.Reshape", "#F5A286"),
   ("keras.layers.convolutional.Conv1D", "#F7D7A8"),
   ("keras.layers.convolutional.Conv2D", "#F7D7A8"),
   ("keras.layers.pooling.MaxPooling1D", "#AADFA2"),
   ("keras.layers.pooling.MaxPooling2D", "#AADFA2"),
   ("keras.layers.convolutional.ZeroPadding3D", "grey"),
   ("keras.layers.core.Flatten", "grey"),
   ("keras.layers.pooling.AveragePooling2D", "#A8CFE7"),
   ("keras.layers.pooling.GlobalAveragePooling2D", "#A8CFE7"),
   ("keras.layers.core.Dropout", "#9896C8"),
   ("keras.layers.core.Dense", "#C66AA7"),
   ("keras.layers.merge.Concatenate", "#F5A286"),
   ("keras.engine.training.Model", "#292D30"),
   ("keras.layers.core.RepeatVector", "grey"),
   ("keras.layers.merge.Multiply", "grey"),
   ("keras.layers.merge.Add", "grey"),
   ("keras.layers.normalization.BatchNormalization", "grey"),
   ("keras.layers.core.Activation", "grey")]

/-- The color resolution of `draw_graph`'s node creation
(`network_visualization.py` lines 72–80): `color` and `fontcolor` come
from `layer_color_dict[layer_type]` — direct dictionary indexing with
no default, so an unregistered type raises `KeyError`, modeled as
`none`. -/
def draw_graph_node_colors (layer_type : String) : Option (String × String) :=
  match List.lookup layer_type nv_layer_color_dict with
  | some c => some (c, c)
  | none => none

/-! ## Derived notions used by the statements -/

/-- The order-preserving list of layers for which the node-creation
pass emits a node directly into the current graph (line 201: every
layer when `expand_nested` is off, the non-`Model` layers when it is
on). -/
def emittedLayers (expand : Bool) (ls : List KLayer) : List KLayer :=
  if expand then ls.filter (fun l => !is_model l) else ls

/-- The node names (`str(id(layer))`) the node-creation pass emits,
in emission order. -/
def emittedIds (expand : Bool) : List KLayer → List String
  | [] => []
  | l :: ls =>
    (if !expand || !is_model l then [toString l.lid] else []) ++ emittedIds expand ls

/-- The keys the wrapped-sub-model branch records under: the inner
sub-model's name (`layer.layer.name`) of each wrapper-around-model
layer, in declaration order. -/
def wrappedModelNames (ls : List KLayer) : List String :=
  ls.filterMap (fun t => if is_wrapped_model t then some (wrappedInnerName t) else none)

/-- The ordered `(source, destination)` pairs of a graph's edges. -/
def edgePairs (d : Dot) : List (String × String) :=
  d.edges.map (fun e => (e.src, e.dst))

/-- The edges the non-expanded edge pass should produce for one layer,
starting at inbound-node index `i`: one edge per inbound layer of each
connection record whose key is in the active node set. -/
def activeEdgesFrom (nn : List String) (lname lid : String) :
    Nat → List (List KLayer) → List DotEdge
  | _, [] => []
  | i, nd :: nds =>
    (if nn.contains (lname ++ ("_ib-") ++ toString i) then
      nd.map (fun r => ⟨toString r.lid, lid, []⟩)
    else []) ++ activeEdgesFrom nn lname lid (i + 1) nds

/-- One edge per `(inbound layer, layer)` pair drawn from the
connection records whose key is in the active node set, over a layer
list, in traversal order. -/
def activeEdges (nn : List String) (ls : List KLayer) : List DotEdge :=
  match ls with
  | [] => []
  | l :: rest => activeEdgesFrom nn l.name (toString l.lid) 0 l.inbound ++ activeEdges nn rest

/-- The shape annotation appended to a label under `show_shapes`,
as the spec describes it: input text from `input_shape` /
`input_shapes`, output text from `output_shape`, placeholder
`multiple` when unresolvable. -/
def shapeAnnot (outS inS : Option String) (inSs : Option (List String)) : String :=
  let outputlabels :=
    match outS with
    | some s => s
    | none => "multiple"
  let inputlabels :=
    match inS with
    | some s => s
    | none =>
      match inSs with
      | some xs => String.intercalate (", ") xs
      | none => "multiple"
  ("\n|\x7binput:|output:\x7d|\x7b\x7b") ++ inputlabels ++ ("\x7d|\x7b") ++
    outputlabels ++ ("\x7d\x7d")

/-- `layerNoUnbuilt p l`: the sub-model reachable from `l` (directly,
or through a wrapper) satisfies `p` (vacuously true for plain layers). -/
def layerNoUnbuilt (p : KModel → Bool) (l : KLayer) : Bool :=
  match l.struct with
  | .plain => true
  | .model m => p m
  | .wrapper inner =>
    match inner.struct with
    | .model m => p m
    | _ => true

/-- No model reachable within `fuel` nesting levels is an unbuilt
`Sequential` (at fuel `0`, conservatively `false`). -/
def noUnbuiltSeq : Nat → KModel → Bool
  | 0, _ => false
  | fuel + 1, m =>
    !(m.isSeq && !m.built) && m.layers.all (layerNoUnbuilt (noUnbuiltSeq fuel))

/-- The error `_check_pydot` raises for a given environment with a
missing dependency. -/
def depError (env : PyEnv) : VisError :=
  if !env.pydot_installed then .importError pydotImportMsg
  else .osError graphvizOsMsg

/-! ## Concrete environments, configurations, models and result
extractors used by the statements below -/

/-- Both optional dependencies available. -/
def envOK : PyEnv := ⟨true, true⟩

/-- `import pydot` failed. -/
def envNoPydot : PyEnv := ⟨false, true⟩

/-- `pydot` importable but the GraphViz binary unusable. -/
def envNoGraphviz : PyEnv := ⟨true, false⟩

/-- The default keyword arguments of `model_to_dot`. -/
def cfgPlain : VisCfg := ⟨false, true, "TB", false, 96⟩

/-- Defaults with `expand_nested=True`. -/
def cfgExpand : VisCfg := ⟨false, true, "TB", true, 96⟩

/-- Scenario A: a linear 3-layer model `input_1 → dense_1 → dense_2`
(the input layer has one connection record with no inbound layers, as
Keras gives an `InputLayer`; all three record keys are active). -/
def inputA : KLayer :=
  .mk 1 "input_1" "InputLayer" "keras.engine.input_layer.InputLayer" [[]]
    none none none .plain

def denseA1 : KLayer :=
  .mk 2 "dense_1" "Dense" "keras.layers.core.Dense" [[inputA]]
    none none none .plain

def denseA2 : KLayer :=
  .mk 3 "dense_2" "Dense" "keras.layers.core.Dense" [[denseA1]]
    none none none .plain

def modelA : KModel :=
  .mk [inputA, denseA1, denseA2]
    [("input_1_ib-0"), ("dense_1_ib-0"), ("dense_2_ib-0")] false true

/-- A wrapper around a one-layer sub-model, fed by two inbound layers
through a single connection record (both collapse onto the same
wrapper-to-cluster boundary pair). -/
def wLayerA : KLayer :=
  .mk 11 "a" "Dense" "keras.layers.core.Dense" [] none none none .plain

def wLayerB : KLayer :=
  .mk 12 "b" "Dense" "keras.layers.core.Dense" [] none none none .plain

def wLeaf : KLayer :=
  .mk 14 "c" "Dense" "keras.layers.core.Dense" [] none none none .plain

def wSubmodel : KModel := .mk [wLeaf] [] false true

def wInnerModel : KLayer :=
  .mk 13 "sm" "Model" "keras.engine.training.Model" [] none none none
    (.model wSubmodel)

def wWrapper : KLayer :=
  .mk 15 "w" "TimeDistributed" "keras.layers.wrappers.TimeDistributed"
    [[wLayerA, wLayerB]] none none none (.wrapper wInnerModel)

def modelW : KModel := .mk [wLayerA, wLayerB, wWrapper] [("w_ib-0")] false true

/-- Scenario B: `x → sub-model [a2 → b2] → y` for expand-nested. -/
def bA2 : KLayer :=
  .mk 21 "a2" "Dense" "keras.layers.core.Dense" [[]] none none none .plain

def bB2 : KLayer :=
  .mk 22 "b2" "Dense" "keras.layers.core.Dense" [[bA2]] none none none .plain

def bSubmodelB : KModel :=
  .mk [bA2, bB2] [("a2_ib-0"), ("b2_ib-0")] false true

def bX : KLayer :=
  .mk 23 "x" "InputLayer" "keras.engine.input_layer.InputLayer" [[]]
    none none none .plain

def bSubLayer : KLayer :=
  .mk 24 "sub" "Model" "keras.engine.training.Model" [[bX]] none none none
    (.model bSubmodelB)

def bY : KLayer :=
  .mk 25 "y" "Dense" "keras.layers.core.Dense" [[bSubLayer]] none none none .plain

def modelB : KModel :=
  .mk [bX, bSubLayer, bY] [("x_ib-0"), ("sub_ib-0"), ("y_ib-0")] false true

/-- A sub-model composed only of a further sub-model: its cluster gets
zero directly-added nodes, so indexing its node list raises. -/
def badLeaf : KLayer :=
  .mk 32 "c3" "Dense" "keras.layers.core.Dense" [] none none none .plain

def badSub2 : KModel := .mk [badLeaf] [] false true

def badT : KLayer :=
  .mk 31 "t" "Model" "keras.engine.training.Model" [] none none none
    (.model badSub2)

def badSub : KModel := .mk [badT] [] false true

def badS : KLayer :=
  .mk 30 "s" "Model" "keras.engine.training.Model" [] none none none
    (.model badSub)

def modelBad : KModel := .mk [badS] [] false true

/-- An unbuilt `Sequential` model. -/
def seqDemo : KModel := .mk [inputA] [] true false

/-- A layer whose runtime type is not registered in any color table. -/
def customLayer : KLayer :=
  .mk 99 "z" "Custom" "custom.MyLayer" [] none none none .plain

/-- Result extractors (total projections of a `model_to_dot` result,
so that concrete statements are closed terms). -/
def resErr : Except VisError (St × KModel) → Option VisError
  | .error e => some e
  | .ok _ => none

def resEdges : Except VisError (St × KModel) → List DotEdge
  | .ok (st, _) => st.dot.edges
  | .error _ => []

def resNodes : Except VisError (St × KModel) → List DotNode
  | .ok (st, _) => st.dot.nodes
  | .error _ => []

def resAttrs : Except VisError (St × KModel) → List (String × String)
  | .ok (st, _) => st.dot.attrs
  | .error _ => []

def resModel : Except VisError (St × KModel) → Option KModel
  | .ok (_, m) => some m
  | .error _ => none

def resBuilt : Except VisError (St × KModel) → Option Bool
  | .ok (_, m) => some m.built
  | .error _ => none

def resNFirst (r : Except VisError (St × KModel)) (k : String) : Option String :=
  match r with
  | .ok (st, _) => List.lookup k st.maps.nFirst
  | .error _ => none

def resWFirst (r : Except VisError (St × KModel)) (k : String) : Option String :=
  match r with
  | .ok (st, _) => List.lookup k st.maps.wFirst
  | .error _ => none

def resWLast (r : Except VisError (St × KModel)) (k : String) : Option String :=
  match r with
  | .ok (st, _) => List.lookup k st.maps.wLast
  | .error _ => none

/-! ## Basic facts about the graph operations -/

@[simp] theorem Dot.attrs_addNode (d : Dot) (n : DotNode) :
    (d.addNode n).attrs = d.attrs := by
  cases d <;> rfl

@[simp] theorem Dot.attrs_addEdgeRaw (d : Dot) (e : DotEdge) :
    (d.addEdgeRaw e).attrs = d.attrs := by
  cases d <;> rfl

@[simp] theorem Dot.attrs_addSubgraph (d s : Dot) :
    (d.addSubgraph s).attrs = d.attrs := by
  cases d <;> rfl

@[simp] theorem Dot.attrs_add_edge (d : Dot) (src dst : String) :
    (add_edge d src dst).attrs = d.attrs := by
  unfold add_edge; split <;> simp

@[simp] theorem Dot.nodes_addNode (d : Dot) (n : DotNode) :
    (d.addNode n).nodes = d.nodes ++ [n] := by
  cases d <;> rfl

@[simp] theorem Dot.nodes_addEdgeRaw (d : Dot) (e : DotEdge) :
    (d.addEdgeRaw e).nodes = d.nodes := by
  cases d <;> rfl

@[simp] theorem Dot.nodes_addSubgraph (d s : Dot) :
    (d.addSubgraph s).nodes = d.nodes := by
  cases d <;> rfl

@[simp] theorem Dot.nodes_add_edge (d : Dot) (src dst : String) :
    (add_edge d src dst).nodes = d.nodes := by
  unfold add_edge; split <;> simp

@[simp] theorem Dot.edges_addNode (d : Dot) (n : DotNode) :
    (d.addNode n).edges = d.edges := by
  cases d <;> rfl

@[simp] theorem Dot.edges_addEdgeRaw (d : Dot) (e : DotEdge) :
    (d.addEdgeRaw e).edges = d.edges ++ [e] := by
  cases d <;> rfl

@[simp] theorem Dot.edges_addSubgraph (d s : Dot) :
    (d.addSubgraph s).edges = d.edges := by
  cases d <;> rfl

theorem Dot.getNode_iff (d : Dot) (nm : String) :
    d.getNode nm = true ↔ nm ∈ d.nodes.map DotNode.name := by
  unfold Dot.getNode
  rw [List.any_eq_true]
  constructor
  · rintro ⟨n, hn, he⟩
    exact List.mem_map.2 ⟨n, hn, beq_iff_eq.1 he⟩
  · intro h
    obtain ⟨n, hn, he⟩ := List.mem_map.1 h
    exact ⟨n, hn, beq_iff_eq.2 he⟩

theorem Dot.getEdge_iff (d : Dot) (src dst : String) :
    d.getEdge src dst = true ↔ (src, dst) ∈ edgePairs d := by
  unfold Dot.getEdge edgePairs
  rw [List.any_eq_true]
  constructor
  · rintro ⟨e, he, hp⟩
    rw [Bool.and_eq_true] at hp
    obtain ⟨h1, h2⟩ := hp
    refine List.mem_map.2 ⟨e, he, ?_⟩
    rw [beq_iff_eq.1 h1, beq_iff_eq.1 h2]
  · intro h
    obtain ⟨e, he, hp⟩ := List.mem_map.1 h
    have h1 : e.src = src := congrArg Prod.fst hp
    have h2 : e.dst = dst := congrArg Prod.snd hp
    refine ⟨e, he, ?_⟩
    rw [Bool.and_eq_true]
    exact ⟨beq_iff_eq.2 h1, beq_iff_eq.2 h2⟩

theorem wrap_stage_spec (recur : String → KModel → Except VisError (St × KModel))
    (cfg : VisCfg) (st : St) (l : KLayer) (st1 : St) (ln cn : String) (l1 : KLayer)
    (h : wrap_stage recur cfg st l = .ok (st1, ln, cn, l1)) :
    st1.dot.attrs = st.dot.attrs ∧ st1.dot.edges = st.dot.edges ∧
    st1.dot.nodes = st.dot.nodes ∧
    st1.maps.nFirst = st.maps.nFirst ∧ st1.maps.nLast = st.maps.nLast ∧
    l1.lid = l.lid ∧ l1.name = l.name ∧ l1.typeTag = l.typeTag ∧
    l1.inbound = l.inbound ∧ is_model l1 = is_model l := by
  cases l with
  | mk lid lname lclass ltag linb loutS linS linSs lstruct =>
    cases lstruct with
    | plain =>
      simp only [wrap_stage, Except.ok.injEq, Prod.mk.injEq] at h
      obtain ⟨h1, h2, h3, h4⟩ := h
      subst h1; subst h2; subst h3; subst h4
      simp
    | model m =>
      simp only [wrap_stage, Except.ok.injEq, Prod.mk.injEq] at h
      obtain ⟨h1, h2, h3, h4⟩ := h
      subst h1; subst h2; subst h3; subst h4
      simp
    | wrapper inner =>
      cases inner with
      | mk ilid iname iclass itag iinb ios iis iiss istruct =>
        cases istruct with
        | plain =>
          simp only [wrap_stage, Except.ok.injEq, Prod.mk.injEq] at h
          obtain ⟨h1, h2, h3, h4⟩ := h
          subst h1; subst h2; subst h3; subst h4
          simp
        | wrapper i2 =>
          simp only [wrap_stage, Except.ok.injEq, Prod.mk.injEq] at h
          obtain ⟨h1, h2, h3, h4⟩ := h
          subst h1; subst h2; subst h3; subst h4
          simp
        | model im =>
          cases hexp : cfg.expand_nested with
          | false =>
            simp only [wrap_stage, hexp, Bool.false_eq_true, if_false,
              Except.ok.injEq, Prod.mk.injEq] at h
            obtain ⟨h1, h2, h3, h4⟩ := h
            subst h1; subst h2; subst h3; subst h4
            simp
          | true =>
            simp only [wrap_stage, hexp, if_true] at h
            cases heq : recur iname im with
            | error e => rw [heq] at h; exact absurd h (by simp)
            | ok p =>
              obtain ⟨stW, im2⟩ := p
              rw [heq] at h
              dsimp only at h
              cases hn : stW.dot.nodes with
              | nil => rw [hn] at h; exact absurd h (by simp)
              | cons n0 rest =>
                rw [hn] at h
                dsimp only at h
                simp only [Except.ok.injEq, Prod.mk.injEq] at h
                obtain ⟨h1, h2, h3, h4⟩ := h
                subst h1; subst h2; subst h3; subst h4
                simp [KLayer.lid, KLayer.name, KLayer.typeTag, KLayer.inbound,
                  is_model, KLayer.struct]

theorem wrap_stage_model_eq (recur : String → KModel → Except VisError (St × KModel))
    (cfg : VisCfg) (st : St) (l : KLayer) (sm : KModel)
    (hsm : l.struct = .model sm) :
    wrap_stage recur cfg st l = .ok (st, l.name, l.className, l) := by
  cases l with
  | mk lid lname lclass ltag linb loutS linS linSs lstruct =>
    cases lstruct with
    | plain => exact absurd hsm (by simp [KLayer.struct])
    | wrapper inner => exact absurd hsm (by simp [KLayer.struct])
    | model m => simp [wrap_stage, KLayer.name, KLayer.className]

theorem wrap_stage_plain_eq (recur : String → KModel → Except VisError (St × KModel))
    (cfg : VisCfg) (st : St) (l : KLayer)
    (hsm : l.struct = .plain) :
    wrap_stage recur cfg st l = .ok (st, l.name, l.className, l) := by
  cases l with
  | mk lid lname lclass ltag linb loutS linS linSs lstruct =>
    cases lstruct with
    | plain => simp [wrap_stage, KLayer.name, KLayer.className]
    | wrapper inner => exact absurd hsm (by simp [KLayer.struct])
    | model m => exact absurd hsm (by simp [KLayer.struct])

theorem wrap_stage_wrapped_rec (recur : String → KModel → Except VisError (St × KModel))
    (cfg : VisCfg) (st : St) (l : KLayer) (st1 : St) (ln cn : String) (l1 : KLayer)
    (inner : KLayer) (im : KModel)
    (hw : l.struct = .wrapper inner) (him : inner.struct = .model im)
    (hexp : cfg.expand_nested = true)
    (h : wrap_stage recur cfg st l = .ok (st1, ln, cn, l1)) :
    ∃ stW im2, recur inner.name im = .ok (stW, im2) ∧ stW.dot.nodes ≠ [] := by
  cases l with
  | mk lid lname lclass ltag linb loutS linS linSs lstruct =>
    cases lstruct with
    | plain => exact absurd hw (by simp [KLayer.struct])
    | model m => exact absurd hw (by simp [KLayer.struct])
    | wrapper inner0 =>
      have hinner : inner0 = inner := by
        have := hw
        simp [KLayer.struct] at this
        exact this
      subst hinner
      cases inner0 with
      | mk ilid iname iclass itag iinb ios iis iiss istruct =>
        cases istruct with
        | plain => exact absurd him (by simp [KLayer.struct])
        | wrapper i2 => exact absurd him (by simp [KLayer.struct])
        | model im0 =>
          have him0 : im0 = im := by
            have := him
            simp [KLayer.struct] at this
            exact this
          subst him0
          simp only [wrap_stage, hexp, if_true] at h
          cases heq : recur iname im0 with
          | error e => rw [heq] at h; exact absurd h (by simp)
          | ok p =>
            obtain ⟨stW, im2⟩ := p
            rw [heq] at h
            dsimp only at h
            cases hn : stW.dot.nodes with
            | nil => rw [hn] at h; exact absurd h (by simp)
            | cons n0 rest =>
              refine ⟨stW, im2, ?_, ?_⟩
              · simpa [KLayer.name] using heq
              · rw [hn]; simp

theorem wrap_stage_keep (recur : String → KModel → Except VisError (St × KModel))
    (cfg : VisCfg) (st : St) (l : KLayer) (st1 : St) (ln cn : String) (l1 : KLayer)
    (hexp : cfg.expand_nested = false)
    (h : wrap_stage recur cfg st l = .ok (st1, ln, cn, l1)) :
    st1 = st ∧ l1 = l := by
  cases l with
  | mk lid lname lclass ltag linb loutS linS linSs lstruct =>
    cases lstruct with
    | plain =>
      simp only [wrap_stage, Except.ok.injEq, Prod.mk.injEq] at h
      exact ⟨h.1.symm, h.2.2.2.symm⟩
    | model m =>
      simp only [wrap_stage, Except.ok.injEq, Prod.mk.injEq] at h
      exact ⟨h.1.symm, h.2.2.2.symm⟩
    | wrapper inner =>
      cases inner with
      | mk ilid iname iclass itag iinb ios iis iiss istruct =>
        cases istruct with
        | plain =>
          simp only [wrap_stage, Except.ok.injEq, Prod.mk.injEq] at h
          exact ⟨h.1.symm, h.2.2.2.symm⟩
        | wrapper i2 =>
          simp only [wrap_stage, Except.ok.injEq, Prod.mk.injEq] at h
          exact ⟨h.1.symm, h.2.2.2.symm⟩
        | model im =>
          simp only [wrap_stage, hexp, Bool.false_eq_true, if_false,
            Except.ok.injEq, Prod.mk.injEq] at h
          exact ⟨h.1.symm, h.2.2.2.symm⟩

theorem wrap_stage_id (recur : String → KModel → Except VisError (St × KModel))
    (cfg : VisCfg) (st : St) (l : KLayer) (st1 : St) (ln cn : String) (l1 : KLayer)
    (P : KModel → Bool) (hP : layerNoUnbuilt P l = true)
    (Hrec : ∀ nm sub stx sub2, P sub = true → recur nm sub = .ok (stx, sub2) → sub2 = sub)
    (h : wrap_stage recur cfg st l = .ok (st1, ln, cn, l1)) :
    l1 = l := by
  cases l with
  | mk lid lname lclass ltag linb loutS linS linSs lstruct =>
    cases lstruct with
    | plain =>
      simp only [wrap_stage, Except.ok.injEq, Prod.mk.injEq] at h
      exact h.2.2.2.symm
    | model m =>
      simp only [wrap_stage, Except.ok.injEq, Prod.mk.injEq] at h
      exact h.2.2.2.symm
    | wrapper inner =>
      cases inner with
      | mk ilid iname iclass itag iinb ios iis iiss istruct =>
        cases istruct with
        | plain =>
          simp only [wrap_stage, Except.ok.injEq, Prod.mk.injEq] at h
          exact h.2.2.2.symm
        | wrapper i2 =>
          simp only [wrap_stage, Except.ok.injEq, Prod.mk.injEq] at h
          exact h.2.2.2.symm
        | model im =>
          cases hexp : cfg.expand_nested with
          | false =>
            simp only [wrap_stage, hexp, Bool.false_eq_true, if_false,
              Except.ok.injEq, Prod.mk.injEq] at h
            exact h.2.2.2.symm
          | true =>
            have hPim : P im = true := by
              simpa [layerNoUnbuilt, KLayer.struct] using hP
            simp only [wrap_stage, hexp, if_true] at h
            cases heq : recur iname im with
            | error e => rw [heq] at h; exact absurd h (by simp)
            | ok p =>
              obtain ⟨stW, im2⟩ := p
              have him2 : im2 = im := Hrec iname im stW im2 hPim heq
              rw [heq] at h
              dsimp only at h
              cases hn : stW.dot.nodes with
              | nil => rw [hn] at h; exact absurd h (by simp)
              | cons n0 rest =>
                rw [hn] at h
                dsimp only at h
                simp only [Except.ok.injEq, Prod.mk.injEq] at h
                rw [← h.2.2.2, him2]

theorem expand_stage_spec (recur : String → KModel → Except VisError (St × KModel))
    (cfg : VisCfg) (st : St) (l : KLayer) (st2 : St) (l2 : KLayer)
    (h : expand_stage recur cfg st l = .ok (st2, l2)) :
    st2.dot.attrs = st.dot.attrs ∧ st2.dot.edges = st.dot.edges ∧
    st2.dot.nodes = st.dot.nodes ∧
    l2.lid = l.lid ∧ l2.name = l.name ∧ l2.typeTag = l.typeTag ∧
    l2.inbound = l.inbound ∧ is_model l2 = is_model l ∧
    l2.outShape = l.outShape ∧ l2.inShape = l.inShape ∧ l2.inShapes = l.inShapes ∧
    (∀ k, k ≠ l.name →
      List.lookup k st2.maps.nFirst = List.lookup k st.maps.nFirst ∧
      List.lookup k st2.maps.nLast = List.lookup k st.maps.nLast) := by
  cases l with
  | mk lid lname lclass ltag linb loutS linS linSs lstruct =>
    cases lstruct with
    | plain =>
      simp only [expand_stage, Except.ok.injEq, Prod.mk.injEq] at h
      obtain ⟨h1, h2⟩ := h
      subst h1; subst h2
      simp
    | wrapper inner =>
      simp only [expand_stage, Except.ok.injEq, Prod.mk.injEq] at h
      obtain ⟨h1, h2⟩ := h
      subst h1; subst h2
      simp
    | model m =>
      cases hexp : cfg.expand_nested with
      | false =>
        simp only [expand_stage, hexp, Bool.false_eq_true, if_false,
          Except.ok.injEq, Prod.mk.injEq] at h
        obtain ⟨h1, h2⟩ := h
        subst h1; subst h2
        simp
      | true =>
        simp only [expand_stage, hexp, if_true] at h
        cases heq : recur lname m with
        | error e => rw [heq] at h; exact absurd h (by simp)
        | ok p =>
          obtain ⟨stN, m2⟩ := p
          rw [heq] at h
          dsimp only at h
          cases hn : stN.dot.nodes with
          | nil => rw [hn] at h; exact absurd h (by simp)
          | cons n0 rest =>
            rw [hn] at h
            dsimp only at h
            simp only [Except.ok.injEq, Prod.mk.injEq] at h
            obtain ⟨h1, h2⟩ := h
            subst h1; subst h2
            refine ⟨by simp, by simp, by simp, by simp [KLayer.lid],
              by simp [KLayer.name], by simp [KLayer.typeTag],
              by simp [KLayer.inbound], by simp [is_model, KLayer.struct],
              by simp [KLayer.outShape], by simp [KLayer.inShape],
              by simp [KLayer.inShapes], ?_⟩
            intro k hk
            have hk2 : (k == lname) = false := by
              simp [KLayer.name] at hk
              simpa using hk
            constructor
            · simp [List.lookup, hk2]
            · simp [List.lookup, hk2]

theorem expand_stage_model_rec (recur : String → KModel → Except VisError (St × KModel))
    (cfg : VisCfg) (st : St) (l : KLayer) (st2 : St) (l2 : KLayer) (sm : KModel)
    (hsm : l.struct = .model sm) (hexp : cfg.expand_nested = true)
    (h : expand_stage recur cfg st l = .ok (st2, l2)) :
    ∃ stN sm2 n0 rest, recur l.name sm = .ok (stN, sm2) ∧
      stN.dot.nodes = n0 :: rest ∧
      st2.maps.nFirst = (l.name, n0.name) :: st.maps.nFirst ∧
      st2.maps.nLast = (l.name, (rest.getLastD n0).name) :: st.maps.nLast := by
  cases l with
  | mk lid lname lclass ltag linb loutS linS linSs lstruct =>
    cases lstruct with
    | plain => exact absurd hsm (by simp [KLayer.struct])
    | wrapper inner => exact absurd hsm (by simp [KLayer.struct])
    | model m =>
      have hm : m = sm := by
        have := hsm
        simp [KLayer.struct] at this
        exact this
      subst hm
      simp only [expand_stage, hexp, if_true] at h
      cases heq : recur lname m with
      | error e => rw [heq] at h; exact absurd h (by simp)
      | ok p =>
        obtain ⟨stN, m2⟩ := p
        rw [heq] at h
        dsimp only at h
        cases hn : stN.dot.nodes with
        | nil => rw [hn] at h; exact absurd h (by simp)
        | cons n0 rest =>
          rw [hn] at h
          dsimp only at h
          simp only [Except.ok.injEq, Prod.mk.injEq] at h
          refine ⟨stN, m2, n0, rest, by simpa [KLayer.name] using heq, hn, ?_, ?_⟩
          · rw [← h.1]; simp [KLayer.name]
          · rw [← h.1]; simp [KLayer.name]

theorem expand_stage_keep (recur : String → KModel → Except VisError (St × KModel))
    (cfg : VisCfg) (st : St) (l : KLayer) (st2 : St) (l2 : KLayer)
    (hexp : cfg.expand_nested = false)
    (h : expand_stage recur cfg st l = .ok (st2, l2)) :
    st2 = st ∧ l2 = l := by
  cases l with
  | mk lid lname lclass ltag linb loutS linS linSs lstruct =>
    cases lstruct with
    | plain =>
      simp only [expand_stage, Except.ok.injEq, Prod.mk.injEq] at h
      exact ⟨h.1.symm, h.2.symm⟩
    | wrapper inner =>
      simp only [expand_stage, Except.ok.injEq, Prod.mk.injEq] at h
      exact ⟨h.1.symm, h.2.symm⟩
    | model m =>
      simp only [expand_stage, hexp, Bool.false_eq_true, if_false,
        Except.ok.injEq, Prod.mk.injEq] at h
      exact ⟨h.1.symm, h.2.symm⟩

theorem expand_stage_nonmodel (recur : String → KModel → Except VisError (St × KModel))
    (cfg : VisCfg) (st : St) (l : KLayer)
    (hm : is_model l = false) :
    expand_stage recur cfg st l = .ok (st, l) := by
  cases l with
  | mk lid lname lclass ltag linb loutS linS linSs lstruct =>
    cases lstruct with
    | plain => simp [expand_stage]
    | wrapper inner => simp [expand_stage]
    | model m => exact absurd hm (by simp [is_model, KLayer.struct])

theorem expand_stage_id (recur : String → KModel → Except VisError (St × KModel))
    (cfg : VisCfg) (st : St) (l : KLayer) (st2 : St) (l2 : KLayer)
    (P : KModel → Bool) (hP : layerNoUnbuilt P l = true)
    (Hrec : ∀ nm sub stx sub2, P sub = true → recur nm sub = .ok (stx, sub2) → sub2 = sub)
    (h : expand_stage recur cfg st l = .ok (st2, l2)) :
    l2 = l := by
  cases l with
  | mk lid lname lclass ltag linb loutS linS linSs lstruct =>
    cases lstruct with
    | plain =>
      simp only [expand_stage, Except.ok.injEq, Prod.mk.injEq] at h
      exact h.2.symm
    | wrapper inner =>
      simp only [expand_stage, Except.ok.injEq, Prod.mk.injEq] at h
      exact h.2.symm
    | model m =>
      cases hexp : cfg.expand_nested with
      | false =>
        simp only [expand_stage, hexp, Bool.false_eq_true, if_false,
          Except.ok.injEq, Prod.mk.injEq] at h
        exact h.2.symm
      | true =>
        have hPm : P m = true := by
          simpa [layerNoUnbuilt, KLayer.struct] using hP
        simp only [expand_stage, hexp, if_true] at h
        cases heq : recur lname m with
        | error e => rw [heq] at h; exact absurd h (by simp)
        | ok p =>
          obtain ⟨stN, m2⟩ := p
          have hm2 : m2 = m := Hrec lname m stN m2 hPm heq
          rw [heq] at h
          dsimp only at h
          cases hn : stN.dot.nodes with
          | nil => rw [hn] at h; exact absurd h (by simp)
          | cons n0 rest =>
            rw [hn] at h
            dsimp only at h
            simp only [Except.ok.injEq, Prod.mk.injEq] at h
            rw [← h.2, hm2]

theorem node_stage_maps (cfg : VisCfg) (st : St) (ln cn : String) (l : KLayer) :
    (node_stage cfg st ln cn l).maps = st.maps := by
  unfold node_stage
  split <;> rfl

theorem node_stage_attrs (cfg : VisCfg) (st : St) (ln cn : String) (l : KLayer) :
    (node_stage cfg st ln cn l).dot.attrs = st.dot.attrs := by
  unfold node_stage
  split <;> simp

theorem node_stage_edges (cfg : VisCfg) (st : St) (ln cn : String) (l : KLayer) :
    (node_stage cfg st ln cn l).dot.edges = st.dot.edges := by
  unfold node_stage
  split <;> simp

theorem node_stage_nodes (cfg : VisCfg) (st : St) (ln cn : String) (l : KLayer) :
    (node_stage cfg st ln cn l).dot.nodes =
      st.dot.nodes ++
        (if !cfg.expand_nested || !is_model l then
          [mkLayerNode cfg.show_layer_names cfg.show_shapes ln cn l]
        else []) := by
  unfold node_stage
  split
  next hc => simp [hc]
  next hc => simp at hc; simp [hc]

theorem layer_step_spec (recur : String → KModel → Except VisError (St × KModel))
    (cfg : VisCfg) (st : St) (l : KLayer) (st' : St) (l' : KLayer)
    (h : layer_step recur cfg st l = .ok (st', l')) :
    st'.dot.attrs = st.dot.attrs ∧
    st'.dot.edges = st.dot.edges ∧
    st'.dot.nodes.map DotNode.name =
      st.dot.nodes.map DotNode.name ++
        (if !cfg.expand_nested || !is_model l then [toString l.lid] else []) ∧
    l'.name = l.name ∧ l'.lid = l.lid ∧ l'.inbound = l.inbound ∧
    is_model l' = is_model l ∧
    (∀ k, k ≠ l.name →
      List.lookup k st'.maps.nFirst = List.lookup k st.maps.nFirst ∧
      List.lookup k st'.maps.nLast = List.lookup k st.maps.nLast) := by
  unfold layer_step at h
  cases hw : wrap_stage recur cfg st l with
  | error e => rw [hw] at h; exact absurd h (by simp)
  | ok q =>
    obtain ⟨st1, ln, cn, l1⟩ := q
    rw [hw] at h
    dsimp only at h
    cases he : expand_stage recur cfg st1 l1 with
    | error e => rw [he] at h; exact absurd h (by simp)
    | ok q2 =>
      obtain ⟨st2, l2⟩ := q2
      rw [he] at h
      dsimp only at h
      simp only [Except.ok.injEq, Prod.mk.injEq] at h
      obtain ⟨h1, h2⟩ := h
      subst h1; subst h2
      obtain ⟨wA, wE, wN, wFst, wLst, wLid, wName, wTag, wInb, wM⟩ :=
        wrap_stage_spec recur cfg st l st1 ln cn l1 hw
      obtain ⟨eA, eE, eN, eLid, eName, eTag, eInb, eM, eOS, eIS, eISs, eLk⟩ :=
        expand_stage_spec recur cfg st1 l1 st2 l2 he
      refine ⟨?_, ?_, ?_, ?_, ?_, ?_, ?_, ?_⟩
      · rw [node_stage_attrs, eA, wA]
      · rw [node_stage_edges, eE, wE]
      · rw [node_stage_nodes, List.map_append, eN, wN]
        have hml : is_model l2 = is_model l := by rw [eM, wM]
        have hlid : l2.lid = l.lid := by rw [eLid, wLid]
        rw [hml]
        cases hc : (!cfg.expand_nested || !is_model l) <;> simp [mkLayerNode, hlid]
      · rw [eName, wName]
      · rw [eLid, wLid]
      · rw [eInb, wInb]
      · rw [eM, wM]
      · intro k hk
        have hk1 : k ≠ l1.name := by rw [wName]; exact hk
        have hmaps : (node_stage cfg st2 ln cn l2).maps = st2.maps :=
          node_stage_maps cfg st2 ln cn l2
        obtain ⟨q1, q2⟩ := eLk k hk1
        rw [hmaps]
        constructor
        · rw [q1, wFst]
        · rw [q2, wLst]

theorem layer_step_model_rec (recur : String → KModel → Except VisError (St × KModel))
    (cfg : VisCfg) (st : St) (l : KLayer) (st' : St) (l' : KLayer) (sm : KModel)
    (hsm : l.struct = .model sm) (hexp : cfg.expand_nested = true)
    (h : layer_step recur cfg st l = .ok (st', l')) :
    ∃ stN sm2 n0 rest, recur l.name sm = .ok (stN, sm2) ∧
      stN.dot.nodes = n0 :: rest ∧
      st'.maps.nFirst = (l.name, n0.name) :: st.maps.nFirst ∧
      st'.maps.nLast = (l.name, (rest.getLastD n0).name) :: st.maps.nLast := by
  unfold layer_step at h
  rw [wrap_stage_model_eq recur cfg st l sm hsm] at h
  dsimp only at h
  cases he : expand_stage recur cfg st l with
  | error e => rw [he] at h; exact absurd h (by simp)
  | ok q2 =>
    obtain ⟨st2, l2⟩ := q2
    rw [he] at h
    dsimp only at h
    simp only [Except.ok.injEq, Prod.mk.injEq] at h
    obtain ⟨h1, h2⟩ := h
    subst h1; subst h2
    obtain ⟨stN, sm2, n0, rest, hrec, hn, hF, hL⟩ :=
      expand_stage_model_rec recur cfg st l st2 l2 sm hsm hexp he
    exact ⟨stN, sm2, n0, rest, hrec, hn,
      by rw [node_stage_maps, hF], by rw [node_stage_maps, hL]⟩

theorem layer_step_wrapped_rec (recur : String → KModel → Except VisError (St × KModel))
    (cfg : VisCfg) (st : St) (l : KLayer) (st' : St) (l' : KLayer)
    (inner : KLayer) (im : KModel)
    (hw : l.struct = .wrapper inner) (him : inner.struct = .model im)
    (hexp : cfg.expand_nested = true)
    (h : layer_step recur cfg st l = .ok (st', l')) :
    ∃ stW im2, recur inner.name im = .ok (stW, im2) ∧ stW.dot.nodes ≠ [] := by
  unfold layer_step at h
  cases hws : wrap_stage recur cfg st l with
  | error e => rw [hws] at h; exact absurd h (by simp)
  | ok q =>
    obtain ⟨st1, ln, cn, l1⟩ := q
    exact wrap_stage_wrapped_rec recur cfg st l st1 ln cn l1 inner im hw him hexp hws

theorem layer_step_id (recur : String → KModel → Except VisError (St × KModel))
    (cfg : VisCfg) (st : St) (l : KLayer) (st' : St) (l' : KLayer)
    (P : KModel → Bool) (hP : layerNoUnbuilt P l = true)
    (Hrec : ∀ nm sub stx sub2, P sub = true → recur nm sub = .ok (stx, sub2) → sub2 = sub)
    (h : layer_step recur cfg st l = .ok (st', l')) :
    l' = l := by
  unfold layer_step at h
  cases hws : wrap_stage recur cfg st l with
  | error e => rw [hws] at h; exact absurd h (by simp)
  | ok q =>
    obtain ⟨st1, ln, cn, l1⟩ := q
    have hl1 : l1 = l := wrap_stage_id recur cfg st l st1 ln cn l1 P hP Hrec hws
    subst hl1
    rw [hws] at h
    dsimp only at h
    cases he : expand_stage recur cfg st1 l1 with
    | error e => rw [he] at h; exact absurd h (by simp)
    | ok q2 =>
      obtain ⟨st2, l2⟩ := q2
      have hl2 : l2 = l1 := expand_stage_id recur cfg st1 l1 st2 l2 P hP Hrec he
      rw [he] at h
      dsimp only at h
      simp only [Except.ok.injEq, Prod.mk.injEq] at h
      rw [← h.2, hl2]

theorem layer_step_keep (recur : String → KModel → Except VisError (St × KModel))
    (cfg : VisCfg) (st : St) (l : KLayer) (st' : St) (l' : KLayer)
    (hexp : cfg.expand_nested = false)
    (h : layer_step recur cfg st l = .ok (st', l')) :
    st'.maps = st.maps ∧ l' = l := by
  unfold layer_step at h
  cases hws : wrap_stage recur cfg st l with
  | error e => rw [hws] at h; exact absurd h (by simp)
  | ok q =>
    obtain ⟨st1, ln, cn, l1⟩ := q
    obtain ⟨hst1, hl1⟩ := wrap_stage_keep recur cfg st l st1 ln cn l1 hexp hws
    rw [hws] at h
    dsimp only at h
    cases he : expand_stage recur cfg st1 l1 with
    | error e => rw [he] at h; exact absurd h (by simp)
    | ok q2 =>
      obtain ⟨st2, l2⟩ := q2
      obtain ⟨hst2, hl2⟩ := expand_stage_keep recur cfg st1 l1 st2 l2 hexp he
      rw [he] at h
      dsimp only at h
      simp only [Except.ok.injEq, Prod.mk.injEq] at h
      constructor
      · rw [← h.1, node_stage_maps, hst2, hst1]
      · rw [← h.2, hl2, hl1]

theorem layer_step_nonmodel_maps (recur : String → KModel → Except VisError (St × KModel))
    (cfg : VisCfg) (st : St) (l : KLayer) (st' : St) (l' : KLayer)
    (hm : is_model l = false)
    (h : layer_step recur cfg st l = .ok (st', l')) :
    st'.maps.nFirst = st.maps.nFirst ∧ st'.maps.nLast = st.maps.nLast := by
  unfold layer_step at h
  cases hws : wrap_stage recur cfg st l with
  | error e => rw [hws] at h; exact absurd h (by simp)
  | ok q =>
    obtain ⟨st1, ln, cn, l1⟩ := q
    obtain ⟨wA, wE, wN, wFst, wLst, wLid, wName, wTag, wInb, wM⟩ :=
      wrap_stage_spec recur cfg st l st1 ln cn l1 hws
    have hm1 : is_model l1 = false := by rw [wM, hm]
    rw [hws] at h
    dsimp only at h
    rw [expand_stage_nonmodel recur cfg st1 l1 hm1] at h
    dsimp only at h
    simp only [Except.ok.injEq, Prod.mk.injEq] at h
    obtain ⟨h1, h2⟩ := h
    subst h1; subst h2
    rw [node_stage_maps]
    exact ⟨wFst, wLst⟩

theorem node_pass_spec (recur : String → KModel → Except VisError (St × KModel))
    (cfg : VisCfg) (st : St) (ls : List KLayer) (st' : St) (ls' : List KLayer)
    (h : node_pass recur cfg st ls = .ok (st', ls')) :
    st'.dot.attrs = st.dot.attrs ∧
    st'.dot.edges = st.dot.edges ∧
    st'.dot.nodes.map DotNode.name =
      st.dot.nodes.map DotNode.name ++ emittedIds cfg.expand_nested ls := by
  induction ls generalizing st st' ls' with
  | nil =>
    simp only [node_pass, Except.ok.injEq, Prod.mk.injEq] at h
    obtain ⟨h1, h2⟩ := h
    subst h1
    simp [emittedIds]
  | cons l ls ih =>
    simp only [node_pass] at h
    cases h1 : layer_step recur cfg st l with
    | error e => rw [h1] at h; exact absurd h (by simp)
    | ok q =>
      obtain ⟨st1, l1⟩ := q
      rw [h1] at h
      dsimp only at h
      cases h2 : node_pass recur cfg st1 ls with
      | error e => rw [h2] at h; exact absurd h (by simp)
      | ok q2 =>
        obtain ⟨st2, ls1⟩ := q2
        rw [h2] at h
        dsimp only at h
        simp only [Except.ok.injEq, Prod.mk.injEq] at h
        obtain ⟨h3, h4⟩ := h
        subst h3
        obtain ⟨sA, sE, sN, _, _, _, _, _⟩ :=
          layer_step_spec recur cfg st l st1 l1 h1
        obtain ⟨iA, iE, iN⟩ := ih st1 st2 ls1 h2
        refine ⟨by rw [iA, sA], by rw [iE, sE], ?_⟩
        rw [iN, sN, emittedIds, List.append_assoc]

theorem node_pass_keep (recur : String → KModel → Except VisError (St × KModel))
    (cfg : VisCfg) (st : St) (ls : List KLayer) (st' : St) (ls' : List KLayer)
    (hexp : cfg.expand_nested = false)
    (h : node_pass recur cfg st ls = .ok (st', ls')) :
    st'.maps = st.maps ∧ ls' = ls := by
  induction ls generalizing st st' ls' with
  | nil =>
    simp only [node_pass, Except.ok.injEq, Prod.mk.injEq] at h
    obtain ⟨h1, h2⟩ := h
    subst h1
    exact ⟨rfl, h2.symm⟩
  | cons l ls ih =>
    simp only [node_pass] at h
    cases h1 : layer_step recur cfg st l with
    | error e => rw [h1] at h; exact absurd h (by simp)
    | ok q =>
      obtain ⟨st1, l1⟩ := q
      rw [h1] at h
      dsimp only at h
      cases h2 : node_pass recur cfg st1 ls with
      | error e => rw [h2] at h; exact absurd h (by simp)
      | ok q2 =>
        obtain ⟨st2, ls1⟩ := q2
        rw [h2] at h
        dsimp only at h
        simp only [Except.ok.injEq, Prod.mk.injEq] at h
        obtain ⟨h3, h4⟩ := h
        subst h3
        obtain ⟨k1, k2⟩ := layer_step_keep recur cfg st l st1 l1 hexp h1
        obtain ⟨i1, i2⟩ := ih st1 st2 ls1 h2
        refine ⟨by rw [i1, k1], ?_⟩
        rw [← h4, k2, i2]

theorem node_pass_id (recur : String → KModel → Except VisError (St × KModel))
    (cfg : VisCfg) (st : St) (ls : List KLayer) (st' : St) (ls' : List KLayer)
    (P : KModel → Bool) (hP : ls.all (layerNoUnbuilt P) = true)
    (Hrec : ∀ nm sub stx sub2, P sub = true → recur nm sub = .ok (stx, sub2) → sub2 = sub)
    (h : node_pass recur cfg st ls = .ok (st', ls')) :
    ls' = ls := by
  induction ls generalizing st st' ls' with
  | nil =>
    simp only [node_pass, Except.ok.injEq, Prod.mk.injEq] at h
    exact h.2.symm
  | cons l ls ih =>
    simp only [List.all_cons, Bool.and_eq_true] at hP
    simp only [node_pass] at h
    cases h1 : layer_step recur cfg st l with
    | error e => rw [h1] at h; exact absurd h (by simp)
    | ok q =>
      obtain ⟨st1, l1⟩ := q
      rw [h1] at h
      dsimp only at h
      cases h2 : node_pass recur cfg st1 ls with
      | error e => rw [h2] at h; exact absurd h (by simp)
      | ok q2 =>
        obtain ⟨st2, ls1⟩ := q2
        rw [h2] at h
        dsimp only at h
        simp only [Except.ok.injEq, Prod.mk.injEq] at h
        rw [← h.2,
          layer_step_id recur cfg st l st1 l1 P hP.1 Hrec h1,
          ih st1 st2 ls1 hP.2 h2]

theorem node_pass_lookup_keep (recur : String → KModel → Except VisError (St × KModel))
    (cfg : VisCfg) (st : St) (ls : List KLayer) (st' : St) (ls' : List KLayer)
    (k : String) (hk : ∀ t ∈ ls, is_model t = true → t.name ≠ k)
    (h : node_pass recur cfg st ls = .ok (st', ls')) :
    List.lookup k st'.maps.nFirst = List.lookup k st.maps.nFirst ∧
    List.lookup k st'.maps.nLast = List.lookup k st.maps.nLast := by
  induction ls generalizing st st' ls' with
  | nil =>
    simp only [node_pass, Except.ok.injEq, Prod.mk.injEq] at h
    rw [← h.1]
    exact ⟨rfl, rfl⟩
  | cons l ls ih =>
    simp only [node_pass] at h
    cases h1 : layer_step recur cfg st l with
    | error e => rw [h1] at h; exact absurd h (by simp)
    | ok q =>
      obtain ⟨st1, l1⟩ := q
      rw [h1] at h
      dsimp only at h
      cases h2 : node_pass recur cfg st1 ls with
      | error e => rw [h2] at h; exact absurd h (by simp)
      | ok q2 =>
        obtain ⟨st2, ls1⟩ := q2
        rw [h2] at h
        dsimp only at h
        simp only [Except.ok.injEq, Prod.mk.injEq] at h
        obtain ⟨h3, h4⟩ := h
        subst h3
        have step : List.lookup k st1.maps.nFirst = List.lookup k st.maps.nFirst ∧
            List.lookup k st1.maps.nLast = List.lookup k st.maps.nLast := by
          cases hm : is_model l with
          | true =>
            have hne : k ≠ l.name := fun he => hk l (by simp) hm he.symm
            exact layer_step_spec recur cfg st l st1 l1 h1 |>.2.2.2.2.2.2.2 k hne
          | false =>
            obtain ⟨p1, p2⟩ := layer_step_nonmodel_maps recur cfg st l st1 l1 hm h1
            rw [p1, p2]
            exact ⟨rfl, rfl⟩
        have tail := ih st1 st2 ls1 (fun t ht hm => hk t (by simp [ht]) hm) h2
        exact ⟨by rw [tail.1, step.1], by rw [tail.2, step.2]⟩

theorem node_pass_model_rec (recur : String → KModel → Except VisError (St × KModel))
    (cfg : VisCfg) (st : St) (ls : List KLayer) (st' : St) (ls' : List KLayer)
    (l : KLayer) (sm : KModel)
    (hl : l ∈ ls) (hsm : l.struct = .model sm)
    (hnd : (ls.map KLayer.name).Nodup)
    (hexp : cfg.expand_nested = true)
    (h : node_pass recur cfg st ls = .ok (st', ls')) :
    ∃ stN sm2 n0 rest, recur l.name sm = .ok (stN, sm2) ∧
      stN.dot.nodes = n0 :: rest ∧
      List.lookup l.name st'.maps.nFirst = some n0.name ∧
      List.lookup l.name st'.maps.nLast = some ((rest.getLastD n0).name) := by
  induction ls generalizing st st' ls' with
  | nil => exact absurd hl (by simp)
  | cons t ls ih =>
    simp only [node_pass] at h
    cases h1 : layer_step recur cfg st t with
    | error e => rw [h1] at h; exact absurd h (by simp)
    | ok q =>
      obtain ⟨st1, l1⟩ := q
      rw [h1] at h
      dsimp only at h
      cases h2 : node_pass recur cfg st1 ls with
      | error e => rw [h2] at h; exact absurd h (by simp)
      | ok q2 =>
        obtain ⟨st2, ls1⟩ := q2
        rw [h2] at h
        dsimp only at h
        simp only [Except.ok.injEq, Prod.mk.injEq] at h
        obtain ⟨h3, h4⟩ := h
        subst h3
        rcases List.mem_cons.1 hl with hl | hl
        · subst hl
          obtain ⟨stN, sm2, n0, rest, hrec, hn, hF, hL⟩ :=
            layer_step_model_rec recur cfg st l st1 l1 sm hsm hexp h1
          have hnotin : ∀ u ∈ ls, is_model u = true → u.name ≠ l.name := by
            intro u hu _ hne
            have : l.name ∈ ls.map KLayer.name := by
              exact List.mem_map.2 ⟨u, hu, hne⟩
            simp only [List.map_cons, List.nodup_cons] at hnd
            exact hnd.1 this
          obtain ⟨k1, k2⟩ :=
            node_pass_lookup_keep recur cfg st1 ls st2 ls1 l.name hnotin h2
          refine ⟨stN, sm2, n0, rest, hrec, hn, ?_, ?_⟩
          · rw [k1, hF]; simp [List.lookup]
          · rw [k2, hL]; simp [List.lookup]
        · simp only [List.map_cons, List.nodup_cons] at hnd
          exact ih st1 st2 ls1 hl hnd.2 h2

theorem node_pass_sub_ok (recur : String → KModel → Except VisError (St × KModel))
    (cfg : VisCfg) (st : St) (ls : List KLayer) (st' : St) (ls' : List KLayer)
    (hexp : cfg.expand_nested = true)
    (h : node_pass recur cfg st ls = .ok (st', ls')) :
    ∀ l ∈ ls,
      (∀ sm, l.struct = .model sm →
        ∃ stN sm2, recur l.name sm = .ok (stN, sm2) ∧ stN.dot.nodes ≠ []) ∧
      (∀ inner im, l.struct = .wrapper inner → inner.struct = .model im →
        ∃ stW im2, recur inner.name im = .ok (stW, im2) ∧ stW.dot.nodes ≠ []) := by
  induction ls generalizing st st' ls' with
  | nil => intro l hl; exact absurd hl (by simp)
  | cons t ls ih =>
    simp only [node_pass] at h
    cases h1 : layer_step recur cfg st t with
    | error e => rw [h1] at h; exact absurd h (by simp)
    | ok q =>
      obtain ⟨st1, l1⟩ := q
      rw [h1] at h
      dsimp only at h
      cases h2 : node_pass recur cfg st1 ls with
      | error e => rw [h2] at h; exact absurd h (by simp)
      | ok q2 =>
        obtain ⟨st2, ls1⟩ := q2
        rw [h2] at h
        dsimp only at h
        intro l hl
        rcases List.mem_cons.1 hl with hl | hl
        · subst hl
          constructor
          · intro sm hsm
            obtain ⟨stN, sm2, n0, rest, hrec, hn, _, _⟩ :=
              layer_step_model_rec recur cfg st l st1 l1 sm hsm hexp h1
            exact ⟨stN, sm2, hrec, by rw [hn]; simp⟩
          · intro inner im hw him
            obtain ⟨stW, im2, hrec, hne⟩ :=
              layer_step_wrapped_rec recur cfg st l st1 l1 inner im hw him hexp h1
            exact ⟨stW, im2, hrec, hne⟩
        · exact ih st1 st2 ls1 h2 l hl

theorem process_inbound_pres (cfg : VisCfg) (maps : MapsSt) (l : KLayer)
    (dot : Dot) (r : KLayer) (dot' : Dot)
    (h : process_inbound cfg maps l dot r = .ok dot') :
    dot'.nodes = dot.nodes ∧ dot'.attrs = dot.attrs := by
  unfold process_inbound at h
  dsimp only at h
  repeat' split at h
  all_goals first
    | (simp only [Except.ok.injEq] at h; subst h; simp)
    | simp at h

theorem inbound_fold_pres (cfg : VisCfg) (maps : MapsSt) (l : KLayer)
    (dot : Dot) (rs : List KLayer) (dot' : Dot)
    (h : inbound_fold cfg maps l dot rs = .ok dot') :
    dot'.nodes = dot.nodes ∧ dot'.attrs = dot.attrs := by
  induction rs generalizing dot with
  | nil =>
    simp only [inbound_fold, Except.ok.injEq] at h
    subst h
    exact ⟨rfl, rfl⟩
  | cons r rs ih =>
    simp only [inbound_fold] at h
    cases h1 : process_inbound cfg maps l dot r with
    | error e => rw [h1] at h; simp at h
    | ok dot1 =>
      rw [h1] at h
      dsimp only at h
      obtain ⟨p1, p2⟩ := process_inbound_pres cfg maps l dot r dot1 h1
      obtain ⟨q1, q2⟩ := ih dot1 h
      exact ⟨by rw [q1, p1], by rw [q2, p2]⟩

theorem node_fold_pres (cfg : VisCfg) (maps : MapsSt) (nn : List String)
    (l : KLayer) (dot : Dot) (i : Nat) (nds : List (List KLayer)) (dot' : Dot)
    (h : node_fold cfg maps nn l dot i nds = .ok dot') :
    dot'.nodes = dot.nodes ∧ dot'.attrs = dot.attrs := by
  induction nds generalizing dot i with
  | nil =>
    simp only [node_fold, Except.ok.injEq] at h
    subst h
    exact ⟨rfl, rfl⟩
  | cons nd nds ih =>
    simp only [node_fold] at h
    by_cases hc : nn.contains (l.name ++ ("_ib-") ++ toString i) = true
    · rw [if_pos hc] at h
      cases h1 : inbound_fold cfg maps l dot nd with
      | error e => rw [h1] at h; simp at h
      | ok dot1 =>
        rw [h1] at h
        dsimp only at h
        obtain ⟨p1, p2⟩ := inbound_fold_pres cfg maps l dot nd dot1 h1
        obtain ⟨q1, q2⟩ := ih dot1 (i + 1) h
        exact ⟨by rw [q1, p1], by rw [q2, p2]⟩
    · rw [if_neg hc] at h
      dsimp only at h
      exact ih dot (i + 1) h

theorem edge_pass_pres (cfg : VisCfg) (maps : MapsSt) (nn : List String)
    (dot : Dot) (ls : List KLayer) (dot' : Dot)
    (h : edge_pass cfg maps nn dot ls = .ok dot') :
    dot'.nodes = dot.nodes ∧ dot'.attrs = dot.attrs := by
  induction ls generalizing dot with
  | nil =>
    simp only [edge_pass, Except.ok.injEq] at h
    subst h
    exact ⟨rfl, rfl⟩
  | cons l ls ih =>
    simp only [edge_pass] at h
    cases h1 : node_fold cfg maps nn l dot 0 l.inbound with
    | error e => rw [h1] at h; simp at h
    | ok dot1 =>
      rw [h1] at h
      dsimp only at h
      obtain ⟨p1, p2⟩ := node_fold_pres cfg maps nn l dot 0 l.inbound dot1 h1
      obtain ⟨q1, q2⟩ := ih dot1 h
      exact ⟨by rw [q1, p1], by rw [q2, p2]⟩

theorem process_inbound_noexp (cfg : VisCfg) (maps : MapsSt) (l : KLayer)
    (dot : Dot) (r : KLayer)
    (hexp : cfg.expand_nested = false)
    (hr : dot.getNode (toString r.lid) = true)
    (hl : dot.getNode (toString l.lid) = true) :
    process_inbound cfg maps l dot r =
      .ok (dot.addEdgeRaw ⟨toString r.lid, toString l.lid, []⟩) := by
  unfold process_inbound
  simp [hexp, hr, hl]

theorem inbound_fold_noexp (cfg : VisCfg) (maps : MapsSt) (l : KLayer)
    (dot : Dot) (rs : List KLayer)
    (hexp : cfg.expand_nested = false)
    (hall : ∀ r ∈ rs, dot.getNode (toString r.lid) = true)
    (hl : dot.getNode (toString l.lid) = true) :
    ∃ dot', inbound_fold cfg maps l dot rs = .ok dot' ∧
      dot'.edges = dot.edges ++
        rs.map (fun r => ⟨toString r.lid, toString l.lid, []⟩) ∧
      dot'.nodes = dot.nodes ∧ dot'.attrs = dot.attrs := by
  induction rs generalizing dot with
  | nil => exact ⟨dot, by simp [inbound_fold], by simp, rfl, rfl⟩
  | cons r rs ih =>
    have hr : dot.getNode (toString r.lid) = true := hall r (by simp)
    have hstep := process_inbound_noexp cfg maps l dot r hexp hr hl
    have hnodes : (dot.addEdgeRaw ⟨toString r.lid, toString l.lid, []⟩).nodes = dot.nodes := by simp
    have hall2 : ∀ u ∈ rs, (dot.addEdgeRaw ⟨toString r.lid, toString l.lid, []⟩).getNode (toString u.lid) = true := by
      intro u hu
      rw [Dot.getNode, hnodes]
      exact hall u (by simp [hu])
    have hl2 : (dot.addEdgeRaw ⟨toString r.lid, toString l.lid, []⟩).getNode (toString l.lid) = true := by
      rw [Dot.getNode, hnodes]
      exact hl
    obtain ⟨dot', hfold, he, hn, ha⟩ :=
      ih (dot.addEdgeRaw ⟨toString r.lid, toString l.lid, []⟩) hall2 hl2
    refine ⟨dot', ?_, ?_, ?_, ?_⟩
    · simp only [inbound_fold, hstep]
      exact hfold
    · rw [he]
      simp
    · rw [hn, hnodes]
    · rw [ha]; simp

theorem node_fold_noexp (cfg : VisCfg) (maps : MapsSt) (nn : List String)
    (l : KLayer) (dot : Dot) (i : Nat) (nds : List (List KLayer))
    (hexp : cfg.expand_nested = false)
    (hall : ∀ nd ∈ nds, ∀ r ∈ nd, dot.getNode (toString r.lid) = true)
    (hl : dot.getNode (toString l.lid) = true) :
    ∃ dot', node_fold cfg maps nn l dot i nds = .ok dot' ∧
      dot'.edges = dot.edges ++ activeEdgesFrom nn l.name (toString l.lid) i nds ∧
      dot'.nodes = dot.nodes ∧ dot'.attrs = dot.attrs := by
  induction nds generalizing dot i with
  | nil => exact ⟨dot, by simp [node_fold], by simp [activeEdgesFrom], rfl, rfl⟩
  | cons nd nds ih =>
    by_cases hc : nn.contains (l.name ++ ("_ib-") ++ toString i) = true
    · obtain ⟨dot1, hfold, he1, hn1, ha1⟩ :=
        inbound_fold_noexp cfg maps l dot nd hexp (hall nd (by simp)) hl
      have hall2 : ∀ u ∈ nds, ∀ r ∈ u, dot1.getNode (toString r.lid) = true := by
        intro u hu r hr
        rw [Dot.getNode, hn1]
        exact hall u (by simp [hu]) r hr
      have hl2 : dot1.getNode (toString l.lid) = true := by
        rw [Dot.getNode, hn1]
        exact hl
      obtain ⟨dot', hfold2, he2, hn2, ha2⟩ := ih dot1 (i + 1) hall2 hl2
      refine ⟨dot', ?_, ?_, ?_, ?_⟩
      · simp only [node_fold, hc, if_pos, hfold]
        exact hfold2
      · have hc2 : l.name ++ ("_ib-") ++ toString i ∈ nn := by simpa using hc
        rw [he2, he1, activeEdgesFrom]
        simp [hc2, List.append_assoc]
      · rw [hn2, hn1]
      · rw [ha2, ha1]
    · have hall2 : ∀ u ∈ nds, ∀ r ∈ u, dot.getNode (toString r.lid) = true := by
        intro u hu r hr
        exact hall u (by simp [hu]) r hr
      obtain ⟨dot', hfold2, he2, hn2, ha2⟩ := ih dot (i + 1) hall2 hl
      refine ⟨dot', ?_, ?_, hn2, ha2⟩
      · simp only [node_fold, hc]
        simpa using hfold2
      · have hc2 : ¬ (l.name ++ ("_ib-") ++ toString i ∈ nn) := by simpa using hc
        rw [he2, activeEdgesFrom]
        simp [hc2]

theorem edge_pass_noexp (cfg : VisCfg) (maps : MapsSt) (nn : List String)
    (dot : Dot) (ls : List KLayer)
    (hexp : cfg.expand_nested = false)
    (hall : ∀ l ∈ ls, ∀ nd ∈ l.inbound, ∀ r ∈ nd,
      dot.getNode (toString r.lid) = true)
    (hls : ∀ l ∈ ls, dot.getNode (toString l.lid) = true) :
    ∃ dot', edge_pass cfg maps nn dot ls = .ok dot' ∧
      dot'.edges = dot.edges ++ activeEdges nn ls ∧
      dot'.nodes = dot.nodes ∧ dot'.attrs = dot.attrs := by
  induction ls generalizing dot with
  | nil => exact ⟨dot, by simp [edge_pass], by simp [activeEdges], rfl, rfl⟩
  | cons l ls ih =>
    obtain ⟨dot1, hfold, he1, hn1, ha1⟩ :=
      node_fold_noexp cfg maps nn l dot 0 l.inbound hexp
        (fun nd hnd r hr => hall l (by simp) nd hnd r hr) (hls l (by simp))
    have hall2 : ∀ u ∈ ls, ∀ nd ∈ u.inbound, ∀ r ∈ nd,
        dot1.getNode (toString r.lid) = true := by
      intro u hu nd hnd r hr
      rw [Dot.getNode, hn1]
      exact hall u (by simp [hu]) nd hnd r hr
    have hls2 : ∀ u ∈ ls, dot1.getNode (toString u.lid) = true := by
      intro u hu
      rw [Dot.getNode, hn1]
      exact hls u (by simp [hu])
    obtain ⟨dot', hpass, he2, hn2, ha2⟩ := ih dot1 hall2 hls2
    refine ⟨dot', ?_, ?_, ?_, ?_⟩
    · simp only [edge_pass, hfold]
      exact hpass
    · rw [he2, he1, activeEdges, List.append_assoc]
    · rw [hn2, hn1]
    · rw [ha2, ha1]

theorem check_pydot_ok (env : PyEnv) (u : Unit)
    (h : _check_pydot env = .ok u) :
    env.pydot_installed = true ∧ env.graphviz_usable = true := by
  unfold _check_pydot at h
  by_cases h1 : env.pydot_installed = true
  · by_cases h2 : env.graphviz_usable = true
    · exact ⟨h1, h2⟩
    · simp [h1, h2] at h
  · simp [h1] at h

theorem emittedIds_map (expand : Bool) (ls : List KLayer) :
    emittedIds expand ls =
      (emittedLayers expand ls).map (fun l => toString l.lid) := by
  induction ls with
  | nil => cases expand <;> simp [emittedIds, emittedLayers]
  | cons l ls ih =>
    cases expand with
    | false =>
      simp only [emittedIds, emittedLayers] at ih ⊢
      simp [ih]
    | true =>
      simp only [emittedIds, emittedLayers] at ih ⊢
      cases hm : is_model l with
      | false => simp [hm, ih, List.filter_cons]
      | true => simp [hm, ih, List.filter_cons]

theorem initGraph_nodes (sub : Bool) (name : String) (dpi : Nat) :
    (if sub then initCluster name else initDot dpi).nodes = [] := by
  cases sub <;> simp [initCluster, initDot, Dot.nodes]

theorem initGraph_edges (sub : Bool) (name : String) (dpi : Nat) :
    (if sub then initCluster name else initDot dpi).edges = [] := by
  cases sub <;> simp [initCluster, initDot, Dot.edges]

theorem model_to_dot_ok_parts (fuel : Nat) (env : PyEnv) (cfg : VisCfg) (sub : Bool)
    (name : String) (m : KModel) (st : St) (m' : KModel)
    (h : model_to_dot (fuel + 1) env cfg sub name m = .ok (st, m')) :
    ∃ st1 layers1 dotF,
      node_pass (fun nm sb => model_to_dot fuel env { cfg with dpi := 96 } true nm sb)
        cfg ⟨(if sub then initCluster name else initDot cfg.dpi), ⟨[], [], [], []⟩⟩ m.layers
        = .ok (st1, layers1) ∧
      edge_pass cfg st1.maps m.networkNodes st1.dot layers1 = .ok dotF ∧
      st = ⟨dotF, st1.maps⟩ ∧
      m' = .mk layers1 m.networkNodes m.isSeq
        (if m.isSeq && !m.built then true else m.built) := by
  unfold model_to_dot at h
  cases hp : _check_pydot env with
  | error e => rw [hp] at h; simp at h
  | ok u =>
    rw [hp] at h
    dsimp only at h
    cases hnp : node_pass (fun nm sb => model_to_dot fuel env { cfg with dpi := 96 } true nm sb)
        cfg ⟨(if sub then initCluster name else initDot cfg.dpi), ⟨[], [], [], []⟩⟩ m.layers with
    | error e => rw [hnp] at h; simp at h
    | ok q =>
      obtain ⟨st1, layers1⟩ := q
      rw [hnp] at h
      dsimp only at h
      cases hep : edge_pass cfg st1.maps m.networkNodes st1.dot layers1 with
      | error e => rw [hep] at h; simp at h
      | ok dotF =>
        rw [hep] at h
        dsimp only at h
        simp only [Except.ok.injEq, Prod.mk.injEq] at h
        exact ⟨st1, layers1, dotF, rfl, hep, h.1.symm, h.2.symm⟩

theorem model_to_dot_nodes (fuel : Nat) (env : PyEnv) (cfg : VisCfg) (sub : Bool)
    (name : String) (m : KModel) (st : St) (m' : KModel)
    (h : model_to_dot fuel env cfg sub name m = .ok (st, m')) :
    st.dot.nodes.map DotNode.name = emittedIds cfg.expand_nested m.layers := by
  cases fuel with
  | zero =>
    unfold model_to_dot at h
    cases hp : _check_pydot env with
    | error e => rw [hp] at h; simp at h
    | ok u => rw [hp] at h; simp at h
  | succ fuel =>
    obtain ⟨st1, layers1, dotF, hnp, hep, hst, hm'⟩ :=
      model_to_dot_ok_parts fuel env cfg sub name m st m' h
    obtain ⟨nA, nE, nN⟩ := node_pass_spec _ cfg _ m.layers st1 layers1 hnp
    obtain ⟨eN, eA⟩ := edge_pass_pres cfg st1.maps m.networkNodes st1.dot layers1 dotF hep
    subst hst
    show dotF.nodes.map DotNode.name = _
    rw [eN, nN]
    simp [initGraph_nodes]

theorem model_to_dot_attrs (fuel : Nat) (env : PyEnv) (cfg : VisCfg)
    (name : String) (m : KModel) (st : St) (m' : KModel)
    (h : model_to_dot fuel env cfg false name m = .ok (st, m')) :
    st.dot.attrs = DOT_KWARGS ++ [("concentrate", "True"), ("dpi", toString cfg.dpi)] := by
  cases fuel with
  | zero =>
    unfold model_to_dot at h
    cases hp : _check_pydot env with
    | error e => rw [hp] at h; simp at h
    | ok u => rw [hp] at h; simp at h
  | succ fuel =>
    obtain ⟨st1, layers1, dotF, hnp, hep, hst, hm'⟩ :=
      model_to_dot_ok_parts fuel env cfg false name m st m' h
    obtain ⟨nA, nE, nN⟩ := node_pass_spec _ cfg _ m.layers st1 layers1 hnp
    obtain ⟨eN, eA⟩ := edge_pass_pres cfg st1.maps m.networkNodes st1.dot layers1 dotF hep
    subst hst
    show dotF.attrs = _
    rw [eA, nA]
    simp [initDot, Dot.attrs]

theorem model_to_dot_id : ∀ (fuel : Nat) (env : PyEnv) (cfg : VisCfg) (sub : Bool)
    (name : String) (m : KModel) (st : St) (m' : KModel),
    noUnbuiltSeq fuel m = true →
    model_to_dot fuel env cfg sub name m = .ok (st, m') → m' = m := by
  intro fuel
  induction fuel with
  | zero =>
    intro env cfg sub name m st m' hP h
    simp [noUnbuiltSeq] at hP
  | succ fuel ih =>
    intro env cfg sub name m st m' hP h
    obtain ⟨st1, layers1, dotF, hnp, hep, hst, hm'⟩ :=
      model_to_dot_ok_parts fuel env cfg sub name m st m' h
    simp only [noUnbuiltSeq, Bool.and_eq_true] at hP
    have hbuilt : (m.isSeq && !m.built) = false := by
      have := hP.1
      cases hb : (m.isSeq && !m.built) with
      | false => rfl
      | true => rw [hb] at this; simp at this
    have hlayers : layers1 = m.layers := by
      refine node_pass_id _ cfg _ m.layers st1 layers1 (noUnbuiltSeq fuel) hP.2 ?_ hnp
      intro nm sub2 stx sub3 hp2 hr
      exact ih env { cfg with dpi := 96 } true nm sub2 stx sub3 hp2 hr
    cases m with
    | mk lsm nnm sqm btm =>
      rw [hm', hlayers]
      simp only [KModel.layers, KModel.networkNodes, KModel.isSeq, KModel.built] at hbuilt ⊢
      rw [hbuilt]
      simp

theorem model_to_dot_noexp (fuel : Nat) (env : PyEnv) (cfg : VisCfg)
    (name : String) (m : KModel) (st : St) (m' : KModel)
    (hexp : cfg.expand_nested = false)
    (hsrc : ∀ l ∈ m.layers, ∀ nd ∈ l.inbound, ∀ r ∈ nd,
      (toString r.lid) ∈ m.layers.map (fun t => toString t.lid))
    (h : model_to_dot fuel env cfg false name m = .ok (st, m')) :
    st.dot.nodes.length = m.layers.length ∧
    st.dot.edges = activeEdges m.networkNodes m.layers := by
  cases fuel with
  | zero =>
    unfold model_to_dot at h
    cases hp : _check_pydot env with
    | error e => rw [hp] at h; simp at h
    | ok u => rw [hp] at h; simp at h
  | succ fuel =>
    obtain ⟨st1, layers1, dotF, hnp, hep, hst, hm'⟩ :=
      model_to_dot_ok_parts fuel env cfg false name m st m' h
    obtain ⟨nA, nE, nN⟩ := node_pass_spec _ cfg _ m.layers st1 layers1 hnp
    obtain ⟨hmaps, hlay⟩ := node_pass_keep _ cfg _ m.layers st1 layers1 hexp hnp
    subst hlay
    have hids : st1.dot.nodes.map DotNode.name =
        m.layers.map (fun t => toString t.lid) := by
      rw [nN, emittedIds_map, hexp]
      simp [emittedLayers, initDot, Dot.nodes]
    have hedges0 : st1.dot.edges = [] := by
      rw [nE]
      simp [initDot, Dot.edges]
    have hgn : ∀ l ∈ m.layers, ∀ nd ∈ l.inbound, ∀ r ∈ nd,
        st1.dot.getNode (toString r.lid) = true := by
      intro l hl nd hnd r hr
      rw [Dot.getNode_iff, hids]
      exact hsrc l hl nd hnd r hr
    have hgl : ∀ l ∈ m.layers, st1.dot.getNode (toString l.lid) = true := by
      intro l hl
      rw [Dot.getNode_iff, hids]
      exact List.mem_map.2 ⟨l, hl, rfl⟩
    obtain ⟨dot2, hpass, hE, hN, hA⟩ :=
      edge_pass_noexp cfg st1.maps m.networkNodes st1.dot m.layers hexp hgn hgl
    have hdot2 : dot2 = dotF := by
      rw [hpass] at hep
      exact (Except.ok.injEq _ _).mp hep
    subst hdot2
    subst hst
    constructor
    · show dot2.nodes.length = _
      rw [hN]
      have := congrArg List.length hids
      simpa using this
    · show dot2.edges = _
      rw [hE, hedges0]
      simp

theorem model_to_dot_record (fuel : Nat) (env : PyEnv) (cfg : VisCfg) (sub : Bool)
    (name : String) (m : KModel) (st : St) (m' : KModel) (l : KLayer) (sm : KModel)
    (hexp : cfg.expand_nested = true)
    (hl : l ∈ m.layers) (hsm : l.struct = .model sm)
    (hnd : (m.layers.map KLayer.name).Nodup)
    (h : model_to_dot (fuel + 1) env cfg sub name m = .ok (st, m')) :
    ∃ stN sm2 n0 rest,
      model_to_dot fuel env { cfg with dpi := 96 } true l.name sm = .ok (stN, sm2) ∧
      stN.dot.nodes = n0 :: rest ∧
      List.lookup l.name st.maps.nFirst = some n0.name ∧
      List.lookup l.name st.maps.nLast = some ((rest.getLastD n0).name) := by
  obtain ⟨st1, layers1, dotF, hnp, hep, hst, hm'⟩ :=
    model_to_dot_ok_parts fuel env cfg sub name m st m' h
  obtain ⟨stN, sm2, n0, rest, hrec, hn, hF, hL⟩ :=
    node_pass_model_rec _ cfg _ m.layers st1 layers1 l sm hl hsm hnd hexp hnp
  subst hst
  exact ⟨stN, sm2, n0, rest, hrec, hn, hF, hL⟩

theorem model_to_dot_sub_ok (fuel : Nat) (env : PyEnv) (cfg : VisCfg) (sub : Bool)
    (name : String) (m : KModel) (st : St) (m' : KModel)
    (hexp : cfg.expand_nested = true)
    (h : model_to_dot (fuel + 1) env cfg sub name m = .ok (st, m')) :
    ∀ l ∈ m.layers,
      (∀ sm, l.struct = .model sm → emittedLayers true sm.layers ≠ []) ∧
      (∀ inner im, l.struct = .wrapper inner → inner.struct = .model im →
        emittedLayers true im.layers ≠ []) := by
  obtain ⟨st1, layers1, dotF, hnp, hep, hst, hm'⟩ :=
    model_to_dot_ok_parts fuel env cfg sub name m st m' h
  have hsub := node_pass_sub_ok _ cfg _ m.layers st1 layers1 hexp hnp
  intro l hl
  obtain ⟨hmod, hwrap⟩ := hsub l hl
  constructor
  · intro sm hsm
    obtain ⟨stN, sm2, hrec, hne⟩ := hmod sm hsm
    have hids := model_to_dot_nodes fuel env { cfg with dpi := 96 } true l.name sm stN sm2 hrec
    have hexp2 : ({ cfg with dpi := 96 } : VisCfg).expand_nested = true := hexp
    rw [hexp2, emittedIds_map] at hids
    intro hemp
    rw [hemp] at hids
    simp at hids
    exact hne (by simpa using congrArg List.length hids)
  · intro inner im hw him
    obtain ⟨stW, im2, hrec, hne⟩ := hwrap inner im hw him
    have hids := model_to_dot_nodes fuel env { cfg with dpi := 96 } true inner.name im stW im2 hrec
    have hexp2 : ({ cfg with dpi := 96 } : VisCfg).expand_nested = true := hexp
    rw [hexp2, emittedIds_map] at hids
    intro hemp
    rw [hemp] at hids
    simp at hids
    exact hne (by simpa using congrArg List.length hids)

theorem edgePairs_addEdgeRaw (d : Dot) (e : DotEdge) :
    edgePairs (d.addEdgeRaw e) = edgePairs d ++ [(e.src, e.dst)] := by
  unfold edgePairs
  simp

theorem add_edge_nodup (dot : Dot) (src dst : String)
    (h : (edgePairs dot).Nodup) : (edgePairs (add_edge dot src dst)).Nodup := by
  unfold add_edge
  by_cases hc : dot.getEdge src dst = true
  · rw [if_pos hc]; exact h
  · rw [if_neg hc]
    have hnm : (src, dst) ∉ edgePairs dot := fun hm =>
      hc ((Dot.getEdge_iff dot src dst).2 hm)
    rw [edgePairs_addEdgeRaw]
    simp only [List.nodup_append, List.nodup_cons, List.not_mem_nil,
      not_false_iff, List.nodup_nil, and_true, List.disjoint_singleton]
    exact ⟨h, by simpa using fun hm => hnm hm⟩

theorem model_to_dot_dep_error (fuel : Nat) (env : PyEnv) (cfg : VisCfg)
    (sub : Bool) (name : String) (m : KModel)
    (h : env.pydot_installed = false ∨ env.graphviz_usable = false) :
    model_to_dot fuel env cfg sub name m = .error (depError env) := by
  have hchk : _check_pydot env = .error (depError env) := by
    unfold _check_pydot depError
    rcases h with h | h
    · simp [h]
    · cases hp : env.pydot_installed with
      | false => simp [hp]
      | true => simp [hp, h]
  cases fuel with
  | zero => unfold model_to_dot; rw [hchk]
  | succ fuel => unfold model_to_dot; rw [hchk]

theorem plot_model_dep_error (fuel : Nat) (env : PyEnv) (cfg : VisCfg)
    (toFile name : String) (m : KModel)
    (h : env.pydot_installed = false ∨ env.graphviz_usable = false) :
    plot_model fuel env cfg toFile name m = .error (depError env) := by
  unfold plot_model
  rw [model_to_dot_dep_error fuel env cfg false name m h]

theorem strDataEq (a b : String) (h : a.data = b.data) : a = b := by
  cases a; cases b
  exact congrArg String.mk h

theorem takeWhileAllAppend (p : Char → Bool) (xs ys : List Char)
    (h : ∀ c ∈ xs, p c = true) :
    (xs ++ ys).takeWhile p = xs ++ ys.takeWhile p := by
  induction xs with
  | nil => simp
  | cons c cs ih =>
    have hc : p c = true := h c (by simp)
    simp only [List.cons_append, List.takeWhile_cons, hc, if_true]
    rw [ih (fun d hd => h d (by simp [hd]))]

theorem lastColonSeg_colon_append (s t : String)
    (ht : ∀ c ∈ t.data, c ≠ ':') :
    lastColonSeg (s ++ (":") ++ t) = t := by
  unfold lastColonSeg
  have hdata : (s ++ (":") ++ t).data = (s.data ++ [':']) ++ t.data := rfl
  rw [hdata, List.reverse_append]
  have hrev : ∀ c ∈ t.data.reverse, (fun c => decide (c ≠ ':')) c = true := by
    intro c hc
    simp only [decide_eq_true_eq]
    exact ht c (List.mem_reverse.1 hc)
  rw [takeWhileAllAppend _ t.data.reverse _ hrev]
  have : ((s.data ++ [':']).reverse).takeWhile (fun c => decide (c ≠ ':')) = [] := by
    rw [List.reverse_append]
    simp
  rw [this]
  apply strDataEq
  simp

theorem lastColonSeg_noColon (t : String)
    (ht : ∀ c ∈ t.data, c ≠ ':') :
    lastColonSeg t = t := by
  unfold lastColonSeg
  have hrev : ∀ c ∈ t.data.reverse, (fun c => decide (c ≠ ':')) c = true := by
    intro c hc
    simp only [decide_eq_true_eq]
    exact ht c (List.mem_reverse.1 hc)
  rw [List.takeWhile_eq_self_iff.2 hrev]
  apply strDataEq
  simp

theorem strDataAppend (a b : String) : (a ++ b).data = a.data ++ b.data := rfl

theorem infix_mid (a b c : String) : b.data <:+: (a ++ b ++ c).data :=
  ⟨a.data, c.data, by simp [strDataAppend]⟩

theorem buildLabel_shapes (names : Bool) (ln cn : String)
    (outS inS : Option String) (inSs : Option (List String)) :
    buildLabel names true ln cn outS inS inSs =
      buildLabel names false ln cn outS inS inSs ++ shapeAnnot outS inS inSs := by
  unfold buildLabel shapeAnnot
  cases outS <;> cases inS <;> cases inSs <;>
    (apply strDataEq; simp [strDataAppend, List.append_assoc])

theorem shapeAnnot_none (inS : Option String) (inSs : Option (List String)) :
    ("multiple").data <:+: (shapeAnnot none inS inSs).data := by
  unfold shapeAnnot
  dsimp only
  exact infix_mid _ _ _

theorem shapeAnnot_some (s : String) (inS : Option String) (inSs : Option (List String)) :
    s.data <:+: (shapeAnnot (some s) inS inSs).data := by
  unfold shapeAnnot
  dsimp only
  exact infix_mid _ _ _

theorem mkLayerNode_label_names (ln cn : String) (l : KLayer)
    (hcn : ∀ c ∈ cn.data, c ≠ ':') :
    (mkLayerNode true false ln cn l).label = (" ") ++ cn := by
  show lastColonSeg (buildLabel true false ln cn l.outShape l.inShape l.inShapes) =
    (" ") ++ cn
  have hb : buildLabel true false ln cn l.outShape l.inShape l.inShapes =
      ln ++ (": ") ++ cn := rfl
  have he : ln ++ (": ") ++ cn = ln ++ (":") ++ ((" ") ++ cn) := by
    apply strDataEq
    simp [strDataAppend]
  rw [hb, he]
  apply lastColonSeg_colon_append
  intro c hc
  have : c = ' ' ∨ c ∈ cn.data := by
    have : ((" ") ++ cn).data = ' ' :: cn.data := rfl
    rw [this] at hc
    simpa using hc
  rcases this with h | h
  · subst h; decide
  · exact hcn c h

theorem mkLayerNode_label_nonames (ln cn : String) (l : KLayer)
    (hcn : ∀ c ∈ cn.data, c ≠ ':') :
    (mkLayerNode false false ln cn l).label = cn := by
  show lastColonSeg (buildLabel false false ln cn l.outShape l.inShape l.inShapes) = cn
  have hb : buildLabel false false ln cn l.outShape l.inShape l.inShapes = cn := rfl
  rw [hb]
  exact lastColonSeg_noColon cn hcn

theorem layerColor_default (tag : String)
    (h : List.lookup tag LAYER_COLOR_DICT = none) :
    layerColor tag = "grey" := by
  unfold layerColor
  rw [h]
  rfl

theorem mkLayerNode_color (a b : Bool) (ln cn : String) (l : KLayer) :
    (mkLayerNode a b ln cn l).color = layerColor l.typeTag := rfl

theorem getLast_cons_getLastD (n0 : DotNode) (rest : List DotNode) :
    (n0 :: rest).getLast? = some (rest.getLastD n0) := by
  induction rest generalizing n0 with
  | nil => simp
  | cons r rs ih =>
    rw [List.getLast?_cons_cons, ih r, List.getLastD_cons]


theorem expand_stage_wmaps (recur : String → KModel → Except VisError (St × KModel))
    (cfg : VisCfg) (st : St) (l : KLayer) (st2 : St) (l2 : KLayer)
    (h : expand_stage recur cfg st l = .ok (st2, l2)) :
    st2.maps.wFirst = st.maps.wFirst ∧ st2.maps.wLast = st.maps.wLast := by
  cases l with
  | mk lid lname lclass ltag linb loutS linS linSs lstruct =>
    cases lstruct with
    | plain =>
      simp only [expand_stage, Except.ok.injEq, Prod.mk.injEq] at h
      rw [← h.1]
      exact ⟨rfl, rfl⟩
    | wrapper inner =>
      simp only [expand_stage, Except.ok.injEq, Prod.mk.injEq] at h
      rw [← h.1]
      exact ⟨rfl, rfl⟩
    | model m =>
      cases hexp : cfg.expand_nested with
      | false =>
        simp only [expand_stage, hexp, Bool.false_eq_true, if_false,
          Except.ok.injEq, Prod.mk.injEq] at h
        rw [← h.1]
        exact ⟨rfl, rfl⟩
      | true =>
        simp only [expand_stage, hexp, if_true] at h
        cases heq : recur lname m with
        | error e => rw [heq] at h; exact absurd h (by simp)
        | ok p =>
          obtain ⟨stN, m2⟩ := p
          rw [heq] at h
          dsimp only at h
          cases hn : stN.dot.nodes with
          | nil => rw [hn] at h; exact absurd h (by simp)
          | cons n0 rest =>
            rw [hn] at h
            dsimp only at h
            simp only [Except.ok.injEq, Prod.mk.injEq] at h
            rw [← h.1]
            exact ⟨rfl, rfl⟩

theorem wrap_stage_wrapped_record (recur : String → KModel → Except VisError (St × KModel))
    (cfg : VisCfg) (st : St) (l : KLayer) (st1 : St) (ln cn : String) (l1 : KLayer)
    (inner : KLayer) (im : KModel)
    (hw : l.struct = .wrapper inner) (him : inner.struct = .model im)
    (hexp : cfg.expand_nested = true)
    (h : wrap_stage recur cfg st l = .ok (st1, ln, cn, l1)) :
    ∃ stW im2 n0 rest, recur inner.name im = .ok (stW, im2) ∧
      stW.dot.nodes = n0 :: rest ∧
      st1.maps.wFirst = (inner.name, n0.name) :: st.maps.wFirst ∧
      st1.maps.wLast = (inner.name, (rest.getLastD n0).name) :: st.maps.wLast := by
  cases l with
  | mk lid lname lclass ltag linb loutS linS linSs lstruct =>
    cases lstruct with
    | plain => exact absurd hw (by simp [KLayer.struct])
    | model m => exact absurd hw (by simp [KLayer.struct])
    | wrapper inner0 =>
      have hinner : inner0 = inner := by
        have := hw
        simp [KLayer.struct] at this
        exact this
      subst hinner
      cases inner0 with
      | mk ilid iname iclass itag iinb ios iis iiss istruct =>
        cases istruct with
        | plain => exact absurd him (by simp [KLayer.struct])
        | wrapper i2 => exact absurd him (by simp [KLayer.struct])
        | model im0 =>
          have him0 : im0 = im := by
            have := him
            simp [KLayer.struct] at this
            exact this
          subst him0
          simp only [wrap_stage, hexp, if_true] at h
          cases heq : recur iname im0 with
          | error e => rw [heq] at h; exact absurd h (by simp)
          | ok p =>
            obtain ⟨stW, im2⟩ := p
            rw [heq] at h
            dsimp only at h
            cases hn : stW.dot.nodes with
            | nil => rw [hn] at h; exact absurd h (by simp)
            | cons n0 rest =>
              rw [hn] at h
              dsimp only at h
              simp only [Except.ok.injEq, Prod.mk.injEq] at h
              refine ⟨stW, im2, n0, rest,
                by simpa [KLayer.name] using heq, hn, ?_, ?_⟩
              · rw [← h.1]; simp [KLayer.name]
              · rw [← h.1]; simp [KLayer.name]

theorem wrap_stage_wlookup (recur : String → KModel → Except VisError (St × KModel))
    (cfg : VisCfg) (st : St) (l : KLayer) (st1 : St) (ln cn : String) (l1 : KLayer)
    (k : String)
    (hk : is_wrapped_model l = true → wrappedInnerName l ≠ k)
    (h : wrap_stage recur cfg st l = .ok (st1, ln, cn, l1)) :
    List.lookup k st1.maps.wFirst = List.lookup k st.maps.wFirst ∧
    List.lookup k st1.maps.wLast = List.lookup k st.maps.wLast := by
  cases l with
  | mk lid lname lclass ltag linb loutS linS linSs lstruct =>
    cases lstruct with
    | plain =>
      simp only [wrap_stage, Except.ok.injEq, Prod.mk.injEq] at h
      rw [← h.1]
      exact ⟨rfl, rfl⟩
    | model m =>
      simp only [wrap_stage, Except.ok.injEq, Prod.mk.injEq] at h
      rw [← h.1]
      exact ⟨rfl, rfl⟩
    | wrapper inner =>
      cases inner with
      | mk ilid iname iclass itag iinb ios iis iiss istruct =>
        cases istruct with
        | plain =>
          simp only [wrap_stage, Except.ok.injEq, Prod.mk.injEq] at h
          rw [← h.1]
          exact ⟨rfl, rfl⟩
        | wrapper i2 =>
          simp only [wrap_stage, Except.ok.injEq, Prod.mk.injEq] at h
          rw [← h.1]
          exact ⟨rfl, rfl⟩
        | model im =>
          cases hexp : cfg.expand_nested with
          | false =>
            simp only [wrap_stage, hexp, Bool.false_eq_true, if_false,
              Except.ok.injEq, Prod.mk.injEq] at h
            rw [← h.1]
            exact ⟨rfl, rfl⟩
          | true =>
            have hkn : iname ≠ k := by
              apply hk
              simp [is_wrapped_model, KLayer.struct, is_model]
            have hkb : (k == iname) = false := by
              simpa using fun he => hkn he.symm
            simp only [wrap_stage, hexp, if_true] at h
            cases heq : recur iname im with
            | error e => rw [heq] at h; exact absurd h (by simp)
            | ok p =>
              obtain ⟨stW, im2⟩ := p
              rw [heq] at h
              dsimp only at h
              cases hn : stW.dot.nodes with
              | nil => rw [hn] at h; exact absurd h (by simp)
              | cons n0 rest =>
                rw [hn] at h
                dsimp only at h
                simp only [Except.ok.injEq, Prod.mk.injEq] at h
                rw [← h.1]
                constructor
                · simp [List.lookup, hkb]
                · simp [List.lookup, hkb]

theorem layer_step_wrapped_record (recur : String → KModel → Except VisError (St × KModel))
    (cfg : VisCfg) (st : St) (l : KLayer) (st' : St) (l' : KLayer)
    (inner : KLayer) (im : KModel)
    (hw : l.struct = .wrapper inner) (him : inner.struct = .model im)
    (hexp : cfg.expand_nested = true)
    (h : layer_step recur cfg st l = .ok (st', l')) :
    ∃ stW im2 n0 rest, recur inner.name im = .ok (stW, im2) ∧
      stW.dot.nodes = n0 :: rest ∧
      st'.maps.wFirst = (inner.name, n0.name) :: st.maps.wFirst ∧
      st'.maps.wLast = (inner.name, (rest.getLastD n0).name) :: st.maps.wLast := by
  unfold layer_step at h
  cases hws : wrap_stage recur cfg st l with
  | error e => rw [hws] at h; exact absurd h (by simp)
  | ok q =>
    obtain ⟨st1, ln, cn, l1⟩ := q
    rw [hws] at h
    dsimp only at h
    obtain ⟨stW, im2, n0, rest, hrec, hn, hF, hL⟩ :=
      wrap_stage_wrapped_record recur cfg st l st1 ln cn l1 inner im hw him hexp hws
    obtain ⟨_, _, _, _, _, _, _, _, _, wM⟩ :=
      wrap_stage_spec recur cfg st l st1 ln cn l1 hws
    have hml : is_model l1 = false := by
      rw [wM]
      simp [is_model, hw]
    rw [expand_stage_nonmodel recur cfg st1 l1 hml] at h
    dsimp only at h
    simp only [Except.ok.injEq, Prod.mk.injEq] at h
    obtain ⟨h1, h2⟩ := h
    subst h1
    refine ⟨stW, im2, n0, rest, hrec, hn, ?_, ?_⟩
    · rw [node_stage_maps, hF]
    · rw [node_stage_maps, hL]

theorem layer_step_wlookup (recur : String → KModel → Except VisError (St × KModel))
    (cfg : VisCfg) (st : St) (l : KLayer) (st' : St) (l' : KLayer) (k : String)
    (hk : is_wrapped_model l = true → wrappedInnerName l ≠ k)
    (h : layer_step recur cfg st l = .ok (st', l')) :
    List.lookup k st'.maps.wFirst = List.lookup k st.maps.wFirst ∧
    List.lookup k st'.maps.wLast = List.lookup k st.maps.wLast := by
  unfold layer_step at h
  cases hws : wrap_stage recur cfg st l with
  | error e => rw [hws] at h; exact absurd h (by simp)
  | ok q =>
    obtain ⟨st1, ln, cn, l1⟩ := q
    rw [hws] at h
    dsimp only at h
    cases he : expand_stage recur cfg st1 l1 with
    | error e => rw [he] at h; exact absurd h (by simp)
    | ok q2 =>
      obtain ⟨st2, l2⟩ := q2
      rw [he] at h
      dsimp only at h
      simp only [Except.ok.injEq, Prod.mk.injEq] at h
      obtain ⟨h1, h2⟩ := h
      subst h1
      obtain ⟨w1, w2⟩ := wrap_stage_wlookup recur cfg st l st1 ln cn l1 k hk hws
      obtain ⟨e1, e2⟩ := expand_stage_wmaps recur cfg st1 l1 st2 l2 he
      rw [node_stage_maps]
      exact ⟨by rw [e1, w1], by rw [e2, w2]⟩

theorem node_pass_wlookup_keep (recur : String → KModel → Except VisError (St × KModel))
    (cfg : VisCfg) (st : St) (ls : List KLayer) (st' : St) (ls' : List KLayer)
    (k : String)
    (hk : ∀ t ∈ ls, is_wrapped_model t = true → wrappedInnerName t ≠ k)
    (h : node_pass recur cfg st ls = .ok (st', ls')) :
    List.lookup k st'.maps.wFirst = List.lookup k st.maps.wFirst ∧
    List.lookup k st'.maps.wLast = List.lookup k st.maps.wLast := by
  induction ls generalizing st st' ls' with
  | nil =>
    simp only [node_pass, Except.ok.injEq, Prod.mk.injEq] at h
    rw [← h.1]
    exact ⟨rfl, rfl⟩
  | cons l ls ih =>
    simp only [node_pass] at h
    cases h1 : layer_step recur cfg st l with
    | error e => rw [h1] at h; exact absurd h (by simp)
    | ok q =>
      obtain ⟨st1, l1⟩ := q
      rw [h1] at h
      dsimp only at h
      cases h2 : node_pass recur cfg st1 ls with
      | error e => rw [h2] at h; exact absurd h (by simp)
      | ok q2 =>
        obtain ⟨st2, ls1⟩ := q2
        rw [h2] at h
        dsimp only at h
        simp only [Except.ok.injEq, Prod.mk.injEq] at h
        obtain ⟨h3, h4⟩ := h
        subst h3
        obtain ⟨s1, s2⟩ :=
          layer_step_wlookup recur cfg st l st1 l1 k (hk l (by simp)) h1
        have tail := ih st1 st2 ls1 (fun t ht hm => hk t (by simp [ht]) hm) h2
        exact ⟨by rw [tail.1, s1], by rw [tail.2, s2]⟩

theorem mem_wrappedModelNames (u : KLayer) (ls : List KLayer)
    (hu : u ∈ ls) (hw : is_wrapped_model u = true) :
    wrappedInnerName u ∈ wrappedModelNames ls := by
  unfold wrappedModelNames
  exact List.mem_filterMap.2 ⟨u, hu, by simp [hw]⟩

theorem wrappedModelNames_tail (t : KLayer) (ls : List KLayer)
    (h : (wrappedModelNames (t :: ls)).Nodup) :
    (wrappedModelNames ls).Nodup := by
  unfold wrappedModelNames at h ⊢
  cases hwt : is_wrapped_model t with
  | false =>
    rw [List.filterMap_cons] at h
    simpa [hwt] using h
  | true =>
    rw [List.filterMap_cons] at h
    simp only [hwt, if_true] at h
    exact (List.nodup_cons.1 h).2

theorem wrappedModelNames_head_notin (t : KLayer) (ls : List KLayer)
    (hwt : is_wrapped_model t = true)
    (h : (wrappedModelNames (t :: ls)).Nodup) :
    wrappedInnerName t ∉ wrappedModelNames ls := by
  unfold wrappedModelNames at h
  rw [List.filterMap_cons] at h
  simp only [hwt, if_true] at h
  exact (List.nodup_cons.1 h).1

theorem node_pass_wrapped_record (recur : String → KModel → Except VisError (St × KModel))
    (cfg : VisCfg) (st : St) (ls : List KLayer) (st' : St) (ls' : List KLayer)
    (l inner : KLayer) (im : KModel)
    (hl : l ∈ ls) (hw : l.struct = .wrapper inner) (him : inner.struct = .model im)
    (hnd : (wrappedModelNames ls).Nodup)
    (hexp : cfg.expand_nested = true)
    (h : node_pass recur cfg st ls = .ok (st', ls')) :
    ∃ stW im2 n0 rest, recur inner.name im = .ok (stW, im2) ∧
      stW.dot.nodes = n0 :: rest ∧
      List.lookup inner.name st'.maps.wFirst = some n0.name ∧
      List.lookup inner.name st'.maps.wLast = some ((rest.getLastD n0).name) := by
  induction ls generalizing st st' ls' with
  | nil => exact absurd hl (by simp)
  | cons t ls ih =>
    simp only [node_pass] at h
    cases h1 : layer_step recur cfg st t with
    | error e => rw [h1] at h; exact absurd h (by simp)
    | ok q =>
      obtain ⟨st1, l1⟩ := q
      rw [h1] at h
      dsimp only at h
      cases h2 : node_pass recur cfg st1 ls with
      | error e => rw [h2] at h; exact absurd h (by simp)
      | ok q2 =>
        obtain ⟨st2, ls1⟩ := q2
        rw [h2] at h
        dsimp only at h
        simp only [Except.ok.injEq, Prod.mk.injEq] at h
        obtain ⟨h3, h4⟩ := h
        subst h3
        rcases List.mem_cons.1 hl with hl | hl
        · subst hl
          obtain ⟨stW, im2, n0, rest, hrec, hn, hF, hL⟩ :=
            layer_step_wrapped_record recur cfg st l st1 l1 inner im hw him hexp h1
          have hwm : is_wrapped_model l = true := by
            simp [is_wrapped_model, hw, is_model, him]
          have hwn : wrappedInnerName l = inner.name := by
            simp [wrappedInnerName, hw]
          have hnotin : ∀ u ∈ ls, is_wrapped_model u = true →
              wrappedInnerName u ≠ inner.name := by
            intro u hu hwu hne
            have hmem := mem_wrappedModelNames u ls hu hwu
            rw [hne] at hmem
            have := wrappedModelNames_head_notin l ls hwm hnd
            rw [hwn] at this
            exact this hmem
          obtain ⟨k1, k2⟩ :=
            node_pass_wlookup_keep recur cfg st1 ls st2 ls1 inner.name hnotin h2
          refine ⟨stW, im2, n0, rest, hrec, hn, ?_, ?_⟩
          · rw [k1, hF]; simp [List.lookup]
          · rw [k2, hL]; simp [List.lookup]
        · exact ih st1 st2 ls1 hl (wrappedModelNames_tail t ls hnd) h2

theorem model_to_dot_wrapped_record (fuel : Nat) (env : PyEnv) (cfg : VisCfg)
    (sub : Bool) (name : String) (m : KModel) (st : St) (m' : KModel)
    (l inner : KLayer) (im : KModel)
    (hexp : cfg.expand_nested = true)
    (hl : l ∈ m.layers) (hw : l.struct = .wrapper inner)
    (him : inner.struct = .model im)
    (hnd : (wrappedModelNames m.layers).Nodup)
    (h : model_to_dot (fuel + 1) env cfg sub name m = .ok (st, m')) :
    ∃ stW im2 n0 rest,
      model_to_dot fuel env { cfg with dpi := 96 } true inner.name im =
        .ok (stW, im2) ∧
      stW.dot.nodes = n0 :: rest ∧
      List.lookup inner.name st.maps.wFirst = some n0.name ∧
      List.lookup inner.name st.maps.wLast = some ((rest.getLastD n0).name) := by
  obtain ⟨st1, layers1, dotF, hnp, hep, hst, hm'⟩ :=
    model_to_dot_ok_parts fuel env cfg sub name m st m' h
  obtain ⟨stW, im2, n0, rest, hrec, hn, hF, hL⟩ :=
    node_pass_wrapped_record _ cfg _ m.layers st1 layers1 l inner im
      hl hw him hnd hexp hnp
  subst hst
  exact ⟨stW, im2, n0, rest, hrec, hn, hF, hL⟩

theorem nodes_first_last (n0 : DotNode) (rest : List DotNode)
    (ls : List KLayer) (f z : KLayer)
    (hids : (n0 :: rest).map DotNode.name =
      (emittedLayers true ls).map (fun t => toString t.lid))
    (hf : (emittedLayers true ls).head? = some f)
    (hz : (emittedLayers true ls).getLast? = some z) :
    n0.name = toString f.lid ∧ (rest.getLastD n0).name = toString z.lid := by
  have hhead := congrArg List.head? hids
  rw [List.head?_map, List.head?_map, hf] at hhead
  simp only [List.head?_cons, Option.map_some'] at hhead
  have hlast := congrArg List.getLast? hids
  rw [List.getLast?_map, List.getLast?_map, hz, getLast_cons_getLastD] at hlast
  simp only [Option.map_some'] at hlast
  exact ⟨Option.some.inj hhead, Option.some.inj hlast⟩

/-! ## Claims -/

/-- C1 (counterexample): the claim fails on the code — the two
boundary edges added when the current layer is a wrapped sub-model
(source lines 237–241) use the direct `dot.add_edge` insertion, not
the deduplicating `add_edge` helper, so two original connections
collapsing onto the same wrapper-to-cluster boundary pair leave two
edges with the same ordered (source, destination) pair in the graph:
in `modelW` (wrapper node `"15"`, cluster first node `"14"`) the
boundary edge `("15", "14")` appears twice. -/
theorem C1_counterexample :
    cfgExpand.expand_nested = true ∧
    (resEdges (model_to_dot 9 envOK cfgExpand false ("p") modelW)).count
      ⟨"15", "14", []⟩ = 2 := by
  decide

/-- C1 (amended): the deduplicating insertion path `add_edge` (used
when rewiring into an expanded plain sub-model and out of any expanded
cluster) skips an edge whose ordered endpoints already exist, so it
never introduces two edges with the same ordered (source, destination)
pair; only the wrapped-sub-model branch, which bypasses it, can. -/
theorem C1_theorem (dot : Dot) (src dst : String)
    (h : (edgePairs dot).Nodup) : (edgePairs (add_edge dot src dst)).Nodup :=
  add_edge_nodup dot src dst h

theorem C1_witness :
    (edgePairs (add_edge (initDot 96) ("1") ("2"))).Nodup ∧
    (edgePairs (add_edge (add_edge (initDot 96) ("1") ("2")) ("1") ("2"))).Nodup :=
  ⟨C1_theorem (initDot 96) ("1") ("2") (by decide),
   C1_theorem (add_edge (initDot 96) ("1") ("2")) ("1") ("2") (by decide)⟩

/-- C2 (counterexample): the claim quantifies over every node-creation
path of the program, but `draw_graph` in `network_visualization.py`
resolves the node color by direct dictionary indexing
(`layer_color_dict[layer_type]`, lines 79–80): an unregistered type
raises `KeyError` (modeled as `none`) instead of the default color. -/
theorem C2_counterexample :
    draw_graph_node_colors ("custom.MyLayer") = none ∧
    List.lookup ("custom.MyLayer") nv_layer_color_dict = none := by
  decide

/-- C2 (amended): in `model_to_dot`'s node creation, a layer whose
runtime type is not a key of `LAYER_COLOR_DICT` receives the default
color `"grey"` and the lookup never fails; the corresponding lookup in
`draw_graph` (the other node-creation path) raises instead. -/
theorem C2_theorem (a b : Bool) (ln cn : String) (l : KLayer)
    (h : List.lookup l.typeTag LAYER_COLOR_DICT = none) :
    (mkLayerNode a b ln cn l).color = "grey" := by
  rw [mkLayerNode_color]
  exact layerColor_default l.typeTag h

theorem C2_witness :
    List.lookup customLayer.typeTag LAYER_COLOR_DICT = none ∧
    (mkLayerNode true false ("z") ("Custom") customLayer).color = "grey" :=
  ⟨by decide, C2_theorem true false ("z") ("Custom") customLayer (by decide)⟩

/-- C3: the rank-direction value is NOT passed through to the
renderer's graph object — line 127 (`dot.set('rankdir', rankdir)`) is
commented out in the source, contradicting both the spec and the
function's own docstring ("`rankdir` argument passed to PyDot").  The
graph's attributes are exactly `DOT_KWARGS` plus `concentrate` and
`dpi`, with no `rankdir` key, whatever the `rankdir` argument. -/
theorem C3_theorem (fuel : Nat) (env : PyEnv) (cfg : VisCfg)
    (name : String) (m : KModel) (st : St) (m' : KModel)
    (h : model_to_dot fuel env cfg false name m = .ok (st, m')) :
    st.dot.attrs =
      DOT_KWARGS ++ [("concentrate", "True"), ("dpi", toString cfg.dpi)] ∧
    List.lookup ("rankdir") st.dot.attrs = none := by
  have ha := model_to_dot_attrs fuel env cfg name m st m' h
  refine ⟨ha, ?_⟩
  rw [ha]
  simp [DOT_KWARGS, List.lookup]

theorem C3_witness :
    List.lookup ("rankdir")
      (resAttrs (model_to_dot 5 envOK cfgPlain false ("model_1") modelA)) = none := by
  cases hok : model_to_dot 5 envOK cfgPlain false ("model_1") modelA with
  | error e =>
    have hne : resErr (model_to_dot 5 envOK cfgPlain false ("model_1") modelA) = none := by
      decide
    rw [hok] at hne
    simp [resErr] at hne
  | ok p =>
    obtain ⟨st, m'⟩ := p
    exact (C3_theorem 5 envOK cfgPlain ("model_1") modelA st m' hok).2

/-- C4 (counterexample): the node is created with
`label=label.split(":")[-1]` (line 203), which strips everything up to
the last colon — including the layer name that `show_layer_names`
placed there.  In scenario A with `show_layer_names=True` the node for
layer `dense_1` has label `" Dense"`, which does not include
`"dense_1"`. -/
theorem C4_counterexample :
    cfgPlain.show_layer_names = true ∧
    (resNodes (model_to_dot 5 envOK cfgPlain false ("model_1") modelA)).map
      DotNode.label = [(" InputLayer"), (" Dense"), (" Dense")] ∧
    ¬ (("dense_1").data <:+: (" Dense").data) := by
  refine ⟨rfl, by decide, by decide⟩

/-- C4 (amended): the label string assembled internally does include
the layer's name when show-layer-names is on, but the node is created
with only the segment after the last colon; with show-shapes off and a
colon-free class name, the node label is `" " ++ class_name` when
show-layer-names is on (the name stripped), and exactly `class_name`
when it is off. -/
theorem C4_theorem (ln cn : String) (l : KLayer)
    (hcn : ∀ c ∈ cn.data, c ≠ ':') :
    (mkLayerNode true false ln cn l).label = (" ") ++ cn ∧
    (mkLayerNode false false ln cn l).label = cn :=
  ⟨mkLayerNode_label_names ln cn l hcn, mkLayerNode_label_nonames ln cn l hcn⟩

theorem C4_witness :
    (mkLayerNode true false ("dense_1") ("Dense") denseA1).label = (" Dense") ∧
    (mkLayerNode false false ("dense_1") ("Dense") denseA1).label = ("Dense") :=
  C4_theorem ("dense_1") ("Dense") denseA1 (by decide)

/-- C5: a missing `pydot` import or an unusable GraphViz binary makes
`_check_pydot` — the first statement of `model_to_dot` — raise the
descriptive `ImportError` / `OSError` before any node or edge is
created (the whole call returns that error and no graph), and
`plot_model` propagates the error before `dot.write` runs, so no
output file is written. -/
theorem C5_theorem (fuel : Nat) (env : PyEnv) (cfg : VisCfg)
    (toFile name : String) (m : KModel)
    (h : env.pydot_installed = false ∨ env.graphviz_usable = false) :
    model_to_dot fuel env cfg false name m = .error (depError env) ∧
    plot_model fuel env cfg toFile name m = .error (depError env) ∧
    ∀ ws, plot_model fuel env cfg toFile name m ≠ .ok ws := by
  refine ⟨model_to_dot_dep_error fuel env cfg false name m h,
    plot_model_dep_error fuel env cfg toFile name m h, ?_⟩
  intro ws hws
  rw [plot_model_dep_error fuel env cfg toFile name m h] at hws
  exact absurd hws (by simp)

theorem C5_witness :
    (envNoPydot.pydot_installed = false ∨ envNoPydot.graphviz_usable = false) ∧
    plot_model 5 envNoPydot cfgPlain ("model.png") ("m") modelA =
      .error (.importError pydotImportMsg) := by
  have h := C5_theorem 5 envNoPydot cfgPlain ("model.png") ("m") modelA
    (Or.inl (by decide))
  exact ⟨Or.inl (by decide), by rw [h.2.1]; rfl⟩

/-- C6: for every sub-model expanded under expand-nested — a plain
`Model` layer recorded in the `sub_n` dictionaries under `layer.name`
(lines 167–176), or a wrapped sub-model recorded in the `sub_w`
dictionaries under `layer.layer.name` (lines 151–161) — the recorded
first boundary node is the node of the first layer emitted in that
sub-model's own declaration order (its node name is the layer's
`str(id(...))`) and the recorded last node is that of the last emitted
layer, determined solely by declaration order, not edge topology
(which the statement never mentions).  The `Nodup` hypotheses say the
respective dictionary keys are unambiguous. -/
theorem C6_theorem (fuel : Nat) (env : PyEnv) (cfg : VisCfg) (sub : Bool)
    (name : String) (m : KModel) (st : St) (m' : KModel)
    (hexp : cfg.expand_nested = true)
    (h : model_to_dot (fuel + 1) env cfg sub name m = .ok (st, m')) :
    (∀ l ∈ m.layers, ∀ sm f z, l.struct = .model sm →
      (m.layers.map KLayer.name).Nodup →
      (emittedLayers true sm.layers).head? = some f →
      (emittedLayers true sm.layers).getLast? = some z →
      List.lookup l.name st.maps.nFirst = some (toString f.lid) ∧
      List.lookup l.name st.maps.nLast = some (toString z.lid)) ∧
    (∀ l ∈ m.layers, ∀ inner im f z, l.struct = .wrapper inner →
      inner.struct = .model im →
      (wrappedModelNames m.layers).Nodup →
      (emittedLayers true im.layers).head? = some f →
      (emittedLayers true im.layers).getLast? = some z →
      List.lookup inner.name st.maps.wFirst = some (toString f.lid) ∧
      List.lookup inner.name st.maps.wLast = some (toString z.lid)) := by
  constructor
  · intro l hl sm f z hsm hnd hf hz
    obtain ⟨stN, sm2, n0, rest, hrec, hn, hF, hL⟩ :=
      model_to_dot_record fuel env cfg sub name m st m' l sm hexp hl hsm hnd h
    have hids := model_to_dot_nodes fuel env { cfg with dpi := 96 } true l.name sm
      stN sm2 hrec
    have hexp2 : ({ cfg with dpi := 96 } : VisCfg).expand_nested = true := hexp
    rw [hexp2, emittedIds_map, hn] at hids
    obtain ⟨h1, h2⟩ := nodes_first_last n0 rest sm.layers f z hids hf hz
    exact ⟨by rw [hF, h1], by rw [hL, h2]⟩
  · intro l hl inner im f z hw him hnd hf hz
    obtain ⟨stW, im2, n0, rest, hrec, hn, hF, hL⟩ :=
      model_to_dot_wrapped_record fuel env cfg sub name m st m' l inner im
        hexp hl hw him hnd h
    have hids := model_to_dot_nodes fuel env { cfg with dpi := 96 } true
      inner.name im stW im2 hrec
    have hexp2 : ({ cfg with dpi := 96 } : VisCfg).expand_nested = true := hexp
    rw [hexp2, emittedIds_map, hn] at hids
    obtain ⟨h1, h2⟩ := nodes_first_last n0 rest im.layers f z hids hf hz
    exact ⟨by rw [hF, h1], by rw [hL, h2]⟩

theorem C6_witness :
    resNFirst (model_to_dot 8 envOK cfgExpand false ("p2") modelB) ("sub") =
      some ("21") ∧
    resWFirst (model_to_dot 9 envOK cfgExpand false ("p") modelW) ("sm") =
      some ("14") ∧
    resWLast (model_to_dot 9 envOK cfgExpand false ("p") modelW) ("sm") =
      some ("14") := by
  refine ⟨?_, ?_⟩
  · cases hok : model_to_dot 8 envOK cfgExpand false ("p2") modelB with
    | error e =>
      have hne : resErr (model_to_dot 8 envOK cfgExpand false ("p2") modelB) = none := by
        decide
      rw [hok] at hne
      simp [resErr] at hne
    | ok p =>
      obtain ⟨st, m'⟩ := p
      have hmem : bSubLayer ∈ modelB.layers :=
        List.mem_cons_of_mem _ (List.mem_cons_self _ _)
      have := (C6_theorem 7 envOK cfgExpand false ("p2") modelB st m' rfl hok).1
        bSubLayer hmem bSubmodelB bA2 bB2 rfl (by decide) rfl rfl
      exact this.1
  · cases hok : model_to_dot 9 envOK cfgExpand false ("p") modelW with
    | error e =>
      have hne : resErr (model_to_dot 9 envOK cfgExpand false ("p") modelW) = none := by
        decide
      rw [hok] at hne
      simp [resErr] at hne
    | ok p =>
      obtain ⟨st, m'⟩ := p
      have hmem : wWrapper ∈ modelW.layers :=
        List.mem_cons_of_mem _ (List.mem_cons_of_mem _ (List.mem_cons_self _ _))
      have := (C6_theorem 8 envOK cfgExpand false ("p") modelW st m' rfl hok).2
        wWrapper hmem wInnerModel wSubmodel wLeaf wLeaf rfl rfl (by decide) rfl rfl
      exact ⟨this.1, this.2⟩

/-- C7: with expand-nested disabled, the construction emits exactly
one node per layer and exactly one edge per (inbound layer, layer)
pair drawn from connection records whose key is in the model's active
node set (`activeEdges`), in traversal order — so when no layer is
shared (the pair list has no duplicates) each pair appears exactly
once; and the linear 3-layer scenario A yields exactly 3 nodes and the
2 edges input→dense1, dense1→dense2.  The hypothesis that every
inbound reference is one of the model's layers discharges the
source's `assert dot.get_node(...)` statements. -/
theorem C7_theorem :
    (∀ (fuel : Nat) (env : PyEnv) (cfg : VisCfg) (name : String) (m : KModel)
      (st : St) (m' : KModel),
      cfg.expand_nested = false →
      (∀ l ∈ m.layers, ∀ nd ∈ l.inbound, ∀ r ∈ nd,
        toString r.lid ∈ m.layers.map (fun t => toString t.lid)) →
      model_to_dot fuel env cfg false name m = .ok (st, m') →
      st.dot.nodes.length = m.layers.length ∧
      st.dot.edges = activeEdges m.networkNodes m.layers ∧
      ((activeEdges m.networkNodes m.layers).Nodup → st.dot.edges.Nodup)) ∧
    (resNodes (model_to_dot 5 envOK cfgPlain false ("model_1") modelA)).length = 3 ∧
    resEdges (model_to_dot 5 envOK cfgPlain false ("model_1") modelA) =
      [⟨"1", "2", []⟩, ⟨"2", "3", []⟩] := by
  refine ⟨?_, by decide, by decide⟩
  intro fuel env cfg name m st m' hexp hsrc h
  obtain ⟨h1, h2⟩ := model_to_dot_noexp fuel env cfg name m st m' hexp hsrc h
  exact ⟨h1, h2, fun hnd => h2 ▸ hnd⟩

theorem C7_witness :
    (∀ l ∈ modelA.layers, ∀ nd ∈ l.inbound, ∀ r ∈ nd,
      toString r.lid ∈ modelA.layers.map (fun t => toString t.lid)) ∧
    (resNodes (model_to_dot 5 envOK cfgPlain false ("model_1") modelA)).length =
      modelA.layers.length := by
  refine ⟨by decide, ?_⟩
  cases hok : model_to_dot 5 envOK cfgPlain false ("model_1") modelA with
  | error e =>
    have hne : resErr (model_to_dot 5 envOK cfgPlain false ("model_1") modelA) = none := by
      decide
    rw [hok] at hne
    simp [resErr] at hne
  | ok p =>
    obtain ⟨st, m'⟩ := p
    exact (C7_theorem.1 5 envOK cfgPlain ("model_1") modelA st m' rfl
      (by decide) hok).1

/-- C8 (counterexample): the construction does modify the model — an
unbuilt `Sequential` is built in place (lines 137–140: `model.build()`
sets the `built` flag), so the model's state after the call differs
from its state before. -/
theorem C8_counterexample :
    seqDemo.built = false ∧ seqDemo.isSeq = true ∧
    resBuilt (model_to_dot 5 envOK cfgPlain false ("sq") seqDemo) = some true := by
  decide

/-- C8 (amended): whenever neither the model nor any sub-model
reachable through nesting is an unbuilt `Sequential` (the only state
`model_to_dot` mutates), the returned model equals the input model. -/
theorem C8_theorem (fuel : Nat) (env : PyEnv) (cfg : VisCfg) (sub : Bool)
    (name : String) (m : KModel) (st : St) (m' : KModel)
    (hP : noUnbuiltSeq fuel m = true)
    (h : model_to_dot fuel env cfg sub name m = .ok (st, m')) :
    m' = m :=
  model_to_dot_id fuel env cfg sub name m st m' hP h

theorem C8_witness :
    noUnbuiltSeq 5 modelA = true ∧
    resModel (model_to_dot 5 envOK cfgPlain false ("model_1") modelA) =
      some modelA := by
  refine ⟨by decide, ?_⟩
  cases hok : model_to_dot 5 envOK cfgPlain false ("model_1") modelA with
  | error e =>
    have hne : resErr (model_to_dot 5 envOK cfgPlain false ("model_1") modelA) = none := by
      decide
    rw [hok] at hne
    simp [resErr] at hne
  | ok p =>
    obtain ⟨st, m'⟩ := p
    have hm := C8_theorem 5 envOK cfgPlain false ("model_1") modelA st m'
      (by decide) hok
    show some m' = some modelA
    rw [hm]

/-- C9: with show-shapes on, every label is the show-shapes-off label
extended by the shape annotation (the label builder is a total
function — no failure is possible); an unresolvable output shape
(`none`, the `AttributeError` case) puts the placeholder `"multiple"`
into the annotation, and a resolvable one puts its text there. -/
theorem C9_theorem (names : Bool) (ln cn : String)
    (outS inS : Option String) (inSs : Option (List String)) :
    buildLabel names true ln cn outS inS inSs =
      buildLabel names false ln cn outS inS inSs ++ shapeAnnot outS inS inSs ∧
    (outS = none → ("multiple").data <:+: (shapeAnnot outS inS inSs).data) ∧
    (∀ s, outS = some s → s.data <:+: (shapeAnnot outS inS inSs).data) := by
  refine ⟨buildLabel_shapes names ln cn outS inS inSs, ?_, ?_⟩
  · intro h
    subst h
    exact shapeAnnot_none inS inSs
  · intro s h
    subst h
    exact shapeAnnot_some s inS inSs

theorem C9_witness :
    buildLabel true true ("dense_1") ("Dense") none (some ("(None, 32)")) none =
      buildLabel true false ("dense_1") ("Dense") none (some ("(None, 32)")) none ++
        shapeAnnot none (some ("(None, 32)")) none ∧
    ("multiple").data <:+: (shapeAnnot none (some ("(None, 32)")) none).data :=
  ⟨(C9_theorem true ("dense_1") ("Dense") none (some ("(None, 32)")) none).1,
   (C9_theorem true ("dense_1") ("Dense") none (some ("(None, 32)")) none).2.1 rfl⟩

/-- C10: with expand-nested on, a sub-model whose cluster holds zero
directly-added nodes (here: a sub-model composed only of a further
sub-model) makes the construction raise `IndexError` at the
`sub_n_nodes[0]` boundary-recording step instead of returning a graph;
and whenever the construction does return a graph, every expanded
plain or wrapped sub-model had at least one directly emitted layer —
non-emptiness of each cluster's node list is a necessary precondition
for the indexing to be safe. -/
theorem C10_theorem :
    resErr (model_to_dot 9 envOK cfgExpand false ("pbad") modelBad) =
      some VisError.indexError ∧
    (∀ (fuel : Nat) (env : PyEnv) (cfg : VisCfg) (sub : Bool) (name : String)
      (m : KModel) (st : St) (m' : KModel),
      cfg.expand_nested = true →
      model_to_dot (fuel + 1) env cfg sub name m = .ok (st, m') →
      ∀ l ∈ m.layers,
        (∀ sm, l.struct = .model sm → emittedLayers true sm.layers ≠ []) ∧
        (∀ inner im, l.struct = .wrapper inner → inner.struct = .model im →
          emittedLayers true im.layers ≠ [])) := by
  refine ⟨by decide, ?_⟩
  intro fuel env cfg sub name m st m' hexp h
  exact model_to_dot_sub_ok fuel env cfg sub name m st m' hexp h

theorem C10_witness :
    emittedLayers true bSubmodelB.layers ≠ [] := by
  cases hok : model_to_dot 8 envOK cfgExpand false ("p2") modelB with
  | error e =>
    have hne : resErr (model_to_dot 8 envOK cfgExpand false ("p2") modelB) = none := by
      decide
    rw [hok] at hne
    simp [resErr] at hne
  | ok p =>
    obtain ⟨st, m'⟩ := p
    have hmem : bSubLayer ∈ modelB.layers :=
      List.mem_cons_of_mem _ (List.mem_cons_self _ _)
    exact (C10_theorem.2 7 envOK cfgExpand false ("p2") modelB st m' rfl hok
      bSubLayer hmem).1 bSubmodelB rfl
